import Mathlib

/-!
# Verification of the jsonpatch engine (`encode.go`) and its deep-copy module

This file gives a shallow embedding of the Go package `jsonpatch`
(`encode.go`) and of its helper module `deep` (`deepcopy.go`), together with
theorems settling the behavioural claims about them.

The engine applies RFC-6902-style patch operations to an in-memory Go value
via reflection.  We embed the universe of host values the engine manipulates
as an inductive type `JP.GoVal`; Go's reflection-level distinctions that the
code observes are represented explicitly:

* numeric values carry a representation tag (`goInt` for a Go `int`,
  `f64` for a `float64`), because `encoding/json` decodes untyped numbers
  as `float64` and `reflect.DeepEqual` distinguishes `int` from `float64`;
* pointers are `vptr d po` where `d` is the zero value of the pointee type
  (standing for the `reflect.Type` information used by `reflect.New`) and
  `po = none` models a nil pointer;
* maps are association lists; `none` models a nil map;
* the results of decoding into an `interface{}` holding a non-pointer are
  the "generic" forms (`vgenObj`, `vgenArr`, `vgenNil`), which are distinct
  from every concrete typed value, exactly as a `map[string]interface{}`
  is a different type from any concrete struct or map type.

Go runtime panics (out-of-range `reflect.Value.Index`, `reflect.Value.Type`
on the zero `Value`, non-assignable `reflect.Value.Set`, ...) are modelled by
the `Except String` layer: `.error msg` is a panic unwinding the call.
Returned Go `error` values are modelled by the `GoErr` type and live inside
the normal result, mirroring the code where `applyNode` receives (and
discards) them.
-/

set_option autoImplicit false

namespace JP

/-- Representation tag of a numeric Go value: a native `int` of the host
structure, or the `float64` produced by decoding an untyped JSON number. -/
inductive NumRep where
  | goInt
  | f64
deriving DecidableEq, Repr

/-- A parsed JSON value: the model of the `json.RawMessage` held in a patch
operation's `Value` field.  `jmissing` models an absent / nil raw message
(for which `json.Unmarshal` fails with an unmarshalling error). -/
inductive JVal where
  | jnull
  | jnum (n : Int)
  | jstr (s : String)
  | jarr (elems : List JVal)
  | jobj (fields : List (String × JVal))
  | jmissing

/-- The universe of Go host values the engine manipulates.

`vslice d es` is a slice whose element type has zero value `d`;
`vmap d ents` is a `map[string]T` with elem-type zero value `d`
(`ents = none` is a nil map); `vstruct fields` is a struct whose fields are
`(name, json tag, value)` triples; `vptr d po` is a `*T` with `T`'s zero
value `d` and pointee `po` (`none` = nil).  `vgenObj`/`vgenArr`/`vgenNil`
are the generic `map[string]interface{}` / `[]interface{}` / nil-interface
values produced by decoding into a plain `interface{}`. -/
inductive GoVal where
  | vnum (rep : NumRep) (n : Int)
  | vstr (s : String)
  | vslice (d : GoVal) (elems : List GoVal)
  | vmap (d : GoVal) (ents : Option (List (String × GoVal)))
  | vstruct (fields : List (String × String × GoVal))
  | vptr (d : GoVal) (pointee : Option GoVal)
  | vgenObj (fields : List (String × GoVal))
  | vgenArr (elems : List GoVal)
  | vgenNil

/-- Errors returned (not panicked) by the Go code.  The string-based errors
`"map element not found"` and `"elements are not equal"` from `encode.go`
get their own constructors. -/
inductive GoErr where
  | incorrectIndex
  | garbage
  | unsupported (seg : String)
  | notImplemented
  | mapElementNotFound
  | elementsNotEqual
  | decodeErr
deriving DecidableEq, Repr

/-- Result of a Go computation that can panic: `.error msg` models a runtime
panic with the given message. -/
abbrev PRes (α : Type) : Type := Except String α

/-! ## String helpers

The Go code uses `strings.Trim(path, "/")`, `strings.SplitN(path, "/", 2)`,
`strings.Title`, `strings.ToLower`, the regexp `[-_]` and `strconv.Atoi`.
We implement them over `List Char` so that every definition is structurally
recursive and evaluates inside the kernel. -/

/-- Drop leading occurrences of a character. -/
def dropLeadChar (c : Char) : List Char → List Char
  | [] => []
  | x :: xs => if x = c then dropLeadChar c xs else x :: xs

/-- `strings.Trim(s, "/")`: remove leading and trailing slashes. -/
def trimSlashes (s : String) : String :=
  String.mk ((dropLeadChar '/' ((dropLeadChar '/' s.toList.reverse).reverse)))

def splitOnCharAux (c : Char) : List Char → List Char → List String
  | [], acc => [String.mk acc.reverse]
  | x :: xs, acc =>
      if x = c then String.mk acc.reverse :: splitOnCharAux c xs []
      else splitOnCharAux c xs (x :: acc)

/-- `strings.Split(s, sep)` for a one-character separator.  Splitting the
path on every `/` is equivalent to the code's repeated
`strings.SplitN(path, "/", 2)` in `rapply`. -/
def splitOnChar (c : Char) (s : String) : List String :=
  splitOnCharAux c s.toList []

/-- The normalisation `strings.ToLower(hyphens.ReplaceAllString(name, ""))`
used by `bestMatch` (strip `-`/`_`, lowercase). -/
def normKey (s : String) : String :=
  String.mk ((s.toList.filter (fun c => ¬(c = '-' ∨ c = '_'))).map Char.toLower)

/-- `strings.isSeparator`, ASCII part: ASCII alphanumerics and underscore
are not separators, every other ASCII character is.  (For non-ASCII runes
Go mostly falls back to "spaces are separators"; the hosts in scope are
ASCII.) -/
def goIsSep (c : Char) : Bool :=
  !(('0' ≤ c ∧ c ≤ '9') ∨ ('a' ≤ c ∧ c ≤ 'z') ∨ ('A' ≤ c ∧ c ≤ 'Z') ∨ c = '_')

def goTitleAux : Bool → List Char → List Char
  | _, [] => []
  | prevSep, c :: cs =>
      (if prevSep then c.toUpper else c) :: goTitleAux (goIsSep c) cs

/-- `strings.Title`: title-case every character that follows a separator
(`prev` starts as `' '`, a separator, so the first character is always
title-cased); `unicode.ToTitle` is `toUpper` on ASCII. -/
def goTitle (s : String) : String :=
  String.mk (goTitleAux true s.toList)

def digitsToNatAux : List Char → Nat → Option Nat
  | [], acc => some acc
  | c :: cs, acc =>
      if c.isDigit then digitsToNatAux cs (acc * 10 + (c.toNat - '0'.toNat))
      else none

def parseDigits : List Char → Option Nat
  | [] => none
  | cs => digitsToNatAux cs 0

/-- `strconv.Atoi`: optional sign followed by at least one digit.
(The int64 overflow bound is not modelled; all indices in scope are tiny.) -/
def goAtoi (s : String) : Option Int :=
  match s.toList with
  | '+' :: cs => (parseDigits cs).map Int.ofNat
  | '-' :: cs => (parseDigits cs).map (fun n => -(n : Int))
  | cs => (parseDigits cs).map Int.ofNat

/-! ## Association-list helpers for map values and struct fields -/

/-- Look a key up in a map's entry list (`reflect.Value.MapIndex`). -/
def lookupG (k : String) : List (String × GoVal) → Option GoVal
  | [] => none
  | (k', v) :: rest => if k' = k then some v else lookupG k rest

/-- `reflect.Value.SetMapIndex` with a valid value: replace the entry if the
key is present, otherwise add it. -/
def setKeyG (k : String) (v : GoVal) : List (String × GoVal) → List (String × GoVal)
  | [] => [(k, v)]
  | (k', w) :: rest => if k' = k then (k, v) :: rest else (k', w) :: setKeyG k v rest

/-- `reflect.Value.SetMapIndex` with the zero `Value`: delete the key. -/
def eraseKeyG (k : String) : List (String × GoVal) → List (String × GoVal)
  | [] => []
  | (k', w) :: rest => if k' = k then rest else (k', w) :: eraseKeyG k rest

/-- `reflect.Value.FieldByName`: the first field with exactly this name. -/
def findFieldG (name : String) : List (String × String × GoVal) → Option GoVal
  | [] => none
  | (n, _, v) :: rest => if n = name then some v else findFieldG name rest

/-- Overwrite the (first) field with the given name. -/
def setFieldG (name : String) (v : GoVal) : List (String × String × GoVal) → List (String × String × GoVal)
  | [] => []
  | (n, t, w) :: rest =>
      if n = name then (n, t, v) :: rest else (n, t, w) :: setFieldG name v rest

/-- The names of a struct's fields, in order. -/
def fieldNames (fields : List (String × String × GoVal)) : List String :=
  fields.map (fun f => f.1)

/-! ## Types, zero values, assignability, deep equality -/

mutual

/-- `reflect.Zero(t)` for the type of the given value: tag-preserving zero
for numbers, `""` for strings, a nil map / nil pointer / empty slice for the
composite kinds, and the field-wise zero for structs. -/
def zeroOf : GoVal → GoVal
  | .vnum rep _ => .vnum rep 0
  | .vstr _ => .vstr ""
  | .vslice d _ => .vslice d []
  | .vmap d _ => .vmap d none
  | .vstruct fields => .vstruct (zeroOfFields fields)
  | .vptr d _ => .vptr d none
  | .vgenObj _ => .vgenObj []
  | .vgenArr _ => .vgenArr []
  | .vgenNil => .vgenNil

def zeroOfFields : List (String × String × GoVal) → List (String × String × GoVal)
  | [] => []
  | (n, t, v) :: rest => (n, t, zeroOf v) :: zeroOfFields rest

end

mutual

/-- Go type identity of two values, as observed by `reflect` assignability
checks: same kind, same numeric representation, same element/pointee type,
and for structs the same field names, tags and field types. -/
def sameTy : GoVal → GoVal → Bool
  | .vnum r1 _, .vnum r2 _ => r1 == r2
  | .vstr _, .vstr _ => true
  | .vslice d1 _, .vslice d2 _ => sameTy d1 d2
  | .vmap d1 _, .vmap d2 _ => sameTy d1 d2
  | .vstruct f1, .vstruct f2 => sameTyFields f1 f2
  | .vptr d1 _, .vptr d2 _ => sameTy d1 d2
  | .vgenObj _, .vgenObj _ => true
  | .vgenArr _, .vgenArr _ => true
  | _, _ => false

def sameTyFields : List (String × String × GoVal) → List (String × String × GoVal) → Bool
  | [], [] => true
  | (n1, t1, v1) :: r1, (n2, t2, v2) :: r2 =>
      n1 == n2 && t1 == t2 && sameTy v1 v2 && sameTyFields r1 r2
  | _, _ => false

end

mutual

/-- `reflect.DeepEqual`.  Values of different types (kinds, numeric
representations, element types) are never deeply equal; maps are compared
without regard to entry order; a nil and a non-nil pointer differ; two
non-nil pointers are deeply equal when their pointees are (pointer equality
in Go implies that as well). -/
def deq (x y : GoVal) : Bool :=
  match x, y with
  | .vnum r1 n1, .vnum r2 n2 => r1 == r2 && n1 == n2
  | .vstr s1, .vstr s2 => s1 == s2
  | .vslice d1 e1, .vslice d2 e2 => sameTy d1 d2 && deqList e1 e2
  | .vmap d1 e1, .vmap d2 e2 =>
      sameTy d1 d2 &&
      (match e1, e2 with
       | none, none => true
       | some a, some b => a.length == b.length && deqEnts a b
       | _, _ => false)
  | .vstruct f1, .vstruct f2 => deqFields f1 f2
  | .vptr d1 p1, .vptr d2 p2 =>
      sameTy d1 d2 &&
      (match p1, p2 with
       | none, none => true
       | some a, some b => deq a b
       | _, _ => false)
  | .vgenObj f1, .vgenObj f2 => f1.length == f2.length && deqEnts f1 f2
  | .vgenArr e1, .vgenArr e2 => deqList e1 e2
  | .vgenNil, .vgenNil => true
  | _, _ => false
termination_by structural x

def deqList (xs ys : List GoVal) : Bool :=
  match xs, ys with
  | [], [] => true
  | x :: xs, y :: ys => deq x y && deqList xs ys
  | _, _ => false
termination_by structural xs

def deqEnts (a b : List (String × GoVal)) : Bool :=
  match a, b with
  | [], _ => true
  | (k, v) :: rest, b =>
      (match lookupG k b with
       | some w => deq v w
       | none => false) && deqEnts rest b
termination_by structural a

def deqFields (a b : List (String × String × GoVal)) : Bool :=
  match a, b with
  | [], [] => true
  | (n1, t1, v1) :: r1, (n2, t2, v2) :: r2 =>
      n1 == n2 && t1 == t2 && deq v1 v2 && deqFields r1 r2
  | _, _ => false
termination_by structural a

end

/-! ## Field resolution (`bestMatch`, encode.go:153-175) -/

/-- `bestMatch`: walk the struct's fields in declaration order and return
the first field that matches the segment by exact name, by one of the
comma-separated flags of its `json` tag, or by normalised
(lowercased, `-`/`_`-stripped) name.  Returns `""` when nothing matches.
Note the three rules are tried per field, not globally in precedence order:
that is exactly what the loop in the source does. -/
def bestMatch (name : String) : List (String × String × GoVal) → String
  | [] => ""
  | (fname, tag, _) :: rest =>
      if fname = name then fname
      else if tag ≠ "" ∧ (splitOnChar ',' tag).contains name then fname
      else if normKey fname = normKey name then fname
      else bestMatch name rest

/-! ## JSON decoding

`json.Unmarshal(data, &n)` behaves in two radically different ways in this
code base, and the distinction drives several claims:

* when `n` is an `interface{}` holding a non-pointer value (or a nil
  pointer), the decoder ignores the held value's type and stores the
  *generic* representation: `float64` for numbers, `string` for strings,
  `map[string]interface{}` / `[]interface{}` / nil for objects, arrays and
  null (`unmarshalGeneric`);
* when the target is (or the interface holds) a non-nil pointer, the
  decoder writes *through* the pointer into the typed value, merging objects
  field by field (`unmarshalInto`).

`json.Unmarshal` on a nil/absent `RawMessage` (modelled by `jmissing`)
fails.  Decode type errors are modelled as atomic failures (`decodeErr`);
the real decoder can leave partial mutations behind on a type error, but no
claim depends on that. -/

mutual

def unmarshalGeneric : JVal → GoVal
  | .jnull => .vgenNil
  | .jnum n => .vnum .f64 n
  | .jstr s => .vstr s
  | .jarr es => .vgenArr (unmarshalGenericList es)
  | .jobj fs => .vgenObj (unmarshalGenericEnts fs)
  | .jmissing => .vgenNil

def unmarshalGenericList : List JVal → List GoVal
  | [] => []
  | e :: es => unmarshalGeneric e :: unmarshalGenericList es

def unmarshalGenericEnts : List (String × JVal) → List (String × GoVal)
  | [] => []
  | (k, v) :: fs => (k, unmarshalGeneric v) :: unmarshalGenericEnts fs

end

/-- Generic decode into a plain `interface{}` value, failing (as
`json.Unmarshal` does) when the raw message is absent. -/
def genDecode : JVal → Except GoErr GoVal
  | .jmissing => .error .decodeErr
  | j => .ok (unmarshalGeneric j)

/-- The effective JSON name of a struct field for `encoding/json` decoding:
the part of the tag before the first comma if non-empty, else the field
name; a tag of exactly `"-"` hides the field. -/
def effName (fname tag : String) : Option String :=
  if tag = "-" then none
  else if tag = "" then some fname
  else match splitOnChar ',' tag with
       | [] => some fname
       | n :: _ => if n = "" then some fname else some n

/-- `encoding/json` object-key-to-field matching: an exact match on the
effective name wins, otherwise the first case-insensitive match. -/
def findDecodeField (key : String) (fields : List (String × String × GoVal)) : Option String :=
  match fields.find? (fun f => (effName f.1 f.2.1).any (fun n => n = key)) with
  | some f => some f.1
  | none =>
      match fields.find? (fun f =>
          (effName f.1 f.2.1).any (fun n => n.toLower = key.toLower)) with
      | some f => some f.1
      | none => none

/-- Strip all pointer layers off a decode target: the list of pointee-type
zero values of each layer (outermost first) and the non-pointer core, which
is the existing pointee where the chain is non-nil (merge target) and the
type's zero value where it is nil (fresh allocation). -/
def ptrLayers : GoVal → List GoVal × GoVal
  | .vptr d (some p) => ((ptrLayers p).1.cons d, (ptrLayers p).2)
  | .vptr d none => ((ptrLayers d).1.cons d, (ptrLayers d).2)
  | v => ([], v)

/-- Rebuild the pointer layers around a decoded core (all layers end up
allocated and pointing at the decoded value). -/
def wrapPtrs : List GoVal → GoVal → GoVal
  | [], r => r
  | d :: ls, r => .vptr d (some (wrapPtrs ls r))

mutual

/-- Typed decode: `json.Unmarshal` into an addressable value of a concrete
type (or through pointers, allocating nil ones).  Objects merge into structs
field by field and into maps key by key; arrays resize the slice to the
payload's length, merging element-wise with the existing elements; `null`
resets pointers, slices and maps to nil and is a no-op on other targets. -/
def unmarshalInto (j : JVal) (v : GoVal) : Except GoErr GoVal :=
  match j with
  | .jmissing => .error .decodeErr
  | .jnull =>
      match v with
      | .vptr d _ => .ok (.vptr d none)
      | .vslice d _ => .ok (.vslice d [])
      | .vmap d _ => .ok (.vmap d none)
      | v => .ok v
  | .jnum n =>
      match ptrLayers v with
      | (ls, .vnum rep _) => .ok (wrapPtrs ls (.vnum rep n))
      | (ls, .vgenObj _) => .ok (wrapPtrs ls (unmarshalGeneric (.jnum n)))
      | (ls, .vgenArr _) => .ok (wrapPtrs ls (unmarshalGeneric (.jnum n)))
      | (ls, .vgenNil) => .ok (wrapPtrs ls (unmarshalGeneric (.jnum n)))
      | _ => .error .decodeErr
  | .jstr s =>
      match ptrLayers v with
      | (ls, .vstr _) => .ok (wrapPtrs ls (.vstr s))
      | (ls, .vgenObj _) => .ok (wrapPtrs ls (unmarshalGeneric (.jstr s)))
      | (ls, .vgenArr _) => .ok (wrapPtrs ls (unmarshalGeneric (.jstr s)))
      | (ls, .vgenNil) => .ok (wrapPtrs ls (unmarshalGeneric (.jstr s)))
      | _ => .error .decodeErr
  | .jarr xs =>
      match ptrLayers v with
      | (ls, .vslice d es) =>
          match unmarshalArr d es xs with
          | .error e => .error e
          | .ok es' => .ok (wrapPtrs ls (.vslice d es'))
      | (ls, .vgenObj _) => .ok (wrapPtrs ls (unmarshalGeneric (.jarr xs)))
      | (ls, .vgenArr _) => .ok (wrapPtrs ls (unmarshalGeneric (.jarr xs)))
      | (ls, .vgenNil) => .ok (wrapPtrs ls (unmarshalGeneric (.jarr xs)))
      | _ => .error .decodeErr
  | .jobj fs =>
      match ptrLayers v with
      | (ls, .vmap d ents) =>
          match unmarshalObjMap d fs (ents.getD []) with
          | .error e => .error e
          | .ok ents' => .ok (wrapPtrs ls (.vmap d (some ents')))
      | (ls, .vstruct fields) =>
          match unmarshalObjStruct fs fields with
          | .error e => .error e
          | .ok fields' => .ok (wrapPtrs ls (.vstruct fields'))
      | (ls, .vgenObj _) => .ok (wrapPtrs ls (unmarshalGeneric (.jobj fs)))
      | (ls, .vgenArr _) => .ok (wrapPtrs ls (unmarshalGeneric (.jobj fs)))
      | (ls, .vgenNil) => .ok (wrapPtrs ls (unmarshalGeneric (.jobj fs)))
      | _ => .error .decodeErr
termination_by structural j

def unmarshalArr (d : GoVal) (es : List GoVal) (xs : List JVal) : Except GoErr (List GoVal) :=
  match xs with
  | [] => .ok []
  | x :: xs =>
      match unmarshalInto x (es.headD d) with
      | .error e => .error e
      | .ok h =>
          match unmarshalArr d es.tail xs with
          | .error e => .error e
          | .ok t => .ok (h :: t)
termination_by structural xs

def unmarshalObjMap (d : GoVal) (fs : List (String × JVal)) (ents : List (String × GoVal)) : Except GoErr (List (String × GoVal)) :=
  match fs with
  | [] => .ok ents
  | (k, jv) :: rest =>
      match unmarshalInto jv (zeroOf d) with
      | .error e => .error e
      | .ok w => unmarshalObjMap d rest (setKeyG k w ents)
termination_by structural fs

def unmarshalObjStruct (fs : List (String × JVal)) (fields : List (String × String × GoVal)) : Except GoErr (List (String × String × GoVal)) :=
  match fs with
  | [] => .ok fields
  | (k, jv) :: rest =>
      match findDecodeField k fields with
      | none => unmarshalObjStruct rest fields
      | some fname =>
          match findFieldG fname fields with
          | none => unmarshalObjStruct rest fields
          | some cur =>
              match unmarshalInto jv cur with
              | .error e => .error e
              | .ok w => unmarshalObjStruct rest (setFieldG fname w fields)
termination_by structural fs

end

/-! ## The patch operations (encode.go:193-406)

Each operation in the source receives a non-nil pointer to its container
(either `child.Addr()` of an addressable child, or a non-nil pointer child,
or the freshly allocated working copy) and dereferences it once.  The model
functions therefore take the container value itself; their nil-pointer
preambles are dead code on every reachable path.  Each returns the updated
container together with the Go `error` the operation returns — the error
that `applyNode` then throws away. -/

/-- The shared tail of `test` (encode.go:396-405): build two `interface{}`
copies of the child, `json.Unmarshal` into one of them, and compare with
`reflect.DeepEqual`.  When the child is a non-nil pointer the decoder
follows it, mutating the shared pointee, and the comparison is between the
same pointer twice, hence always succeeds.  When the child is anything
else the decode is generic, so numbers decode as `float64` and composite
payloads decode as generic maps/arrays, and the comparison is
type-sensitive. -/
def testTail (jv : JVal) (child : GoVal) : GoVal × Option GoErr :=
  match child with
  | .vptr d (some p) =>
      match unmarshalInto jv p with
      | .error e => (.vptr d (some p), some e)
      | .ok p' => (.vptr d (some p'), none)
  | .vptr d none =>
      match genDecode jv with
      | .error e => (.vptr d none, some e)
      | .ok _ => (.vptr d none, some .elementsNotEqual)
  | c =>
      match genDecode jv with
      | .error e => (c, some e)
      | .ok g => (c, if deq g c then none else some .elementsNotEqual)

/-- `add` (encode.go:193-276). -/
def add (node : String) (jv : JVal) (v : GoVal) : PRes (GoVal × Option GoErr) :=
  match v with
  | .vslice d es =>
      let l := es.length
      if node = "-" then
        -- sl := MakeSlice(l+1); reflect.Copy(sl, v); child := sl.Index(l);
        -- n := child.Interface() holds a non-pointer (or nil-pointer) zero
        -- value, so json.Unmarshal decodes generically, and
        -- child.Set(reflect.ValueOf(n)) panics unless the decoded value's
        -- dynamic type is the element type (ValueOf of a nil interface is
        -- the zero Value, on which Set panics as well).
        match genDecode jv with
        | .error e => .ok (v, some e)
        | .ok g =>
            match g with
            | .vgenNil => .error "reflect: Set using zero Value argument"
            | g =>
                if sameTy g d then .ok (.vslice d (es ++ [g]), none)
                else .error "reflect: Set of inassignable value"
      else
        match goAtoi node with
        | none => .ok (v, some .incorrectIndex)
        | some pos =>
            -- child := v.Index(pos): no bounds check precedes this, so any
            -- pos outside [0, l) panics — including pos == l.
            if pos < 0 ∨ (l : Int) ≤ pos then .error "reflect: slice index out of range"
            else
              let i := pos.toNat
              match es.getD i d with
              | .vptr d' (some p) =>
                  -- the interface copy holds a non-nil pointer: typed decode
                  -- through the shared pointee; the same pointer is inserted.
                  match unmarshalInto jv p with
                  | .error e => .ok (v, some e)
                  | .ok p' =>
                      let c' : GoVal := .vptr d' (some p')
                      let es' := es.set i c'
                      .ok (.vslice d (es'.take i ++ [c'] ++ es'.drop i), none)
              | .vptr _ none =>
                  -- a nil pointer in an interface is not followed: generic
                  -- decode, then reflect.Append of a non-pointer value panics.
                  match genDecode jv with
                  | .error e => .ok (v, some e)
                  | .ok _ => .error "reflect: Append of inassignable value"
              | _ =>
                  match genDecode jv with
                  | .error e => .ok (v, some e)
                  | .ok g =>
                      match g with
                      | .vgenNil => .error "reflect: Append using zero Value argument"
                      | g =>
                          if sameTy g d then
                            .ok (.vslice d (es.take i ++ [g] ++ es.drop i), none)
                          else .error "reflect: Append of inassignable value"
  | .vmap d ents =>
      -- if v.IsNil() { v.Set(MakeMap) }: the map is materialised before the
      -- decode, so that mutation persists even when the decode then fails.
      let ents' := ents.getD []
      match genDecode jv with
      | .error e => .ok (.vmap d (some ents'), some e)
      | .ok g =>
          match g with
          | .vgenNil =>
              -- Unmarshal(null) leaves a nil interface; reflect.ValueOf(n) is
              -- the zero Value and SetMapIndex with it deletes the key.
              .ok (.vmap d (some (eraseKeyG node ents')), none)
          | g =>
              if sameTy g d then .ok (.vmap d (some (setKeyG node g ents')), none)
              else .error "reflect: SetMapIndex of inassignable value"
  | .vstruct fields =>
      -- child := v.FieldByName(strings.Title(node)) — note: Title-case plus
      -- exact lookup, NOT bestMatch, which is only used while navigating.
      match findFieldG (goTitle node) fields with
      | none =>
          -- the zero Value: its Kind is Invalid, so the pointer branch is
          -- skipped and reflect.New(child.Type()) panics.
          .error "reflect: call of reflect.Value.Type on zero Value"
      | some child =>
          match child with
          | .vptr dp none =>
              -- nil pointer field: n := reflect.New(elem); typed decode into
              -- the fresh zero pointee; the field becomes the new pointer.
              match unmarshalInto jv dp with
              | .error e => .ok (v, some e)
              | .ok r => .ok (.vstruct (setFieldG (goTitle node) (.vptr dp (some r)) fields), none)
          | child =>
              -- n := reflect.New(child.Type()): typed decode into a fresh
              -- zero of the field type, then child.Set(n.Elem()).
              match unmarshalInto jv (zeroOf child) with
              | .error e => .ok (v, some e)
              | .ok r => .ok (.vstruct (setFieldG (goTitle node) r fields), none)
  | .vptr d po =>
      -- container itself a pointer (the original value was a **T):
      -- materialise if nil; el := v.Elem().Interface(); decode; then
      -- v.Set(reflect.ValueOf(el).Addr()) panics — ValueOf is unaddressable.
      match po with
      | some (.vptr _ (some q)) =>
          match unmarshalInto jv q with
          | .error e => .ok (v, some e)
          | .ok _ => .error "reflect: call of reflect.Value.Addr on unaddressable value"
      | some _ =>
          match genDecode jv with
          | .error e => .ok (v, some e)
          | .ok _ => .error "reflect: call of reflect.Value.Addr on unaddressable value"
      | none =>
          match genDecode jv with
          | .error e => .ok (.vptr d (some d), some e)
          | .ok _ => .error "reflect: call of reflect.Value.Addr on unaddressable value"
  | .vgenObj ents =>
      -- Kind Map with interface{} elements: everything is assignable.
      match genDecode jv with
      | .error e => .ok (v, some e)
      | .ok g =>
          match g with
          | .vgenNil => .ok (.vgenObj (eraseKeyG node ents), none)
          | g => .ok (.vgenObj (setKeyG node g ents), none)
  | .vgenArr es =>
      -- Kind Slice with interface{} elements.
      let l := es.length
      if node = "-" then
        match genDecode jv with
        | .error e => .ok (v, some e)
        | .ok g =>
            match g with
            | .vgenNil => .error "reflect: Set using zero Value argument"
            | g => .ok (.vgenArr (es ++ [g]), none)
      else
        match goAtoi node with
        | none => .ok (v, some .incorrectIndex)
        | some pos =>
            if pos < 0 ∨ (l : Int) ≤ pos then .error "reflect: slice index out of range"
            else
              match genDecode jv with
              | .error e => .ok (v, some e)
              | .ok g =>
                  match g with
                  | .vgenNil => .error "reflect: Append using zero Value argument"
                  | g => .ok (.vgenArr (es.take pos.toNat ++ [g] ++ es.drop pos.toNat), none)
  | _ =>
      -- vnum, vstr, vgenNil: no case of the switch matches; return nil.
      .ok (v, none)

/-- `replace` (encode.go:278-330). -/
def replace (node : String) (jv : JVal) (v : GoVal) : PRes (GoVal × Option GoErr) :=
  match v with
  | .vslice d es =>
      match goAtoi node with
      | none => .ok (v, some .incorrectIndex)
      | some pos =>
          if (es.length : Int) < pos then .ok (v, some .incorrectIndex)
          else if pos < 0 ∨ pos = (es.length : Int) then
            -- the bounds check is `pos > v.Len()`, so pos == len slips
            -- through and v.Index(pos) panics; negatives panic the same way.
            .error "reflect: slice index out of range"
          else
            let i := pos.toNat
            match es.getD i d with
            | .vptr d' (some p) =>
                match unmarshalInto jv p with
                | .error e => .ok (v, some e)
                | .ok p' => .ok (.vslice d (es.set i (.vptr d' (some p'))), none)
            | .vptr _ none =>
                match genDecode jv with
                | .error e => .ok (v, some e)
                | .ok _ => .error "reflect: Set of inassignable value"
            | _ =>
                match genDecode jv with
                | .error e => .ok (v, some e)
                | .ok g =>
                    match g with
                    | .vgenNil => .error "reflect: Set using zero Value argument"
                    | g =>
                        if sameTy g d then .ok (.vslice d (es.set i g), none)
                        else .error "reflect: Set of inassignable value"
  | .vmap d ents =>
      match lookupG node (ents.getD []) with
      | none => .ok (v, some .mapElementNotFound)
      | some c =>
          match c with
          | .vptr d' (some p) =>
              match unmarshalInto jv p with
              | .error e => .ok (v, some e)
              | .ok p' => .ok (.vmap d (some (setKeyG node (.vptr d' (some p')) (ents.getD []))), none)
          | .vptr _ none =>
              match genDecode jv with
              | .error e => .ok (v, some e)
              | .ok g =>
                  match g with
                  | .vgenNil => .ok (.vmap d (some (eraseKeyG node (ents.getD []))), none)
                  | _ => .error "reflect: SetMapIndex of inassignable value"
          | _ =>
              match genDecode jv with
              | .error e => .ok (v, some e)
              | .ok g =>
                  match g with
                  | .vgenNil => .ok (.vmap d (some (eraseKeyG node (ents.getD []))), none)
                  | g =>
                      if sameTy g d then .ok (.vmap d (some (setKeyG node g (ents.getD []))), none)
                      else .error "reflect: SetMapIndex of inassignable value"
  | .vstruct fields =>
      -- child := v.FieldByName(strings.Title(node)); an unresolved name
      -- leaves the zero Value and reflect.New(child.Type()) panics.
      match findFieldG (goTitle node) fields with
      | none => .error "reflect: call of reflect.Value.Type on zero Value"
      | some child =>
          match unmarshalInto jv (zeroOf child) with
          | .error e => .ok (v, some e)
          | .ok r => .ok (.vstruct (setFieldG (goTitle node) r fields), none)
  | .vptr _ _ => .ok (v, some .notImplemented)
  | .vgenObj ents =>
      match lookupG node ents with
      | none => .ok (v, some .mapElementNotFound)
      | some _ =>
          match genDecode jv with
          | .error e => .ok (v, some e)
          | .ok g =>
              match g with
              | .vgenNil => .ok (.vgenObj (eraseKeyG node ents), none)
              | g => .ok (.vgenObj (setKeyG node g ents), none)
  | .vgenArr es =>
      match goAtoi node with
      | none => .ok (v, some .incorrectIndex)
      | some pos =>
          if (es.length : Int) < pos then .ok (v, some .incorrectIndex)
          else if pos < 0 ∨ pos = (es.length : Int) then
            .error "reflect: slice index out of range"
          else
            match genDecode jv with
            | .error e => .ok (v, some e)
            | .ok g =>
                match g with
                | .vgenNil => .error "reflect: Set using zero Value argument"
                | g => .ok (.vgenArr (es.set pos.toNat g), none)
  | _ => .ok (v, none)

/-- `remove` (encode.go:332-364). -/
def remove (node : String) (v : GoVal) : PRes (GoVal × Option GoErr) :=
  match v with
  | .vslice d es =>
      match goAtoi node with
      | none => .ok (v, some .incorrectIndex)
      | some pos =>
          -- sl := MakeSlice(len, len-1): panics on an empty slice (cap -1);
          -- then v.Slice(0,pos) / v.Slice(pos+1,len) panic out of [0, len).
          if es.length = 0 then .error "reflect.MakeSlice: negative cap"
          else if pos < 0 ∨ (es.length : Int) ≤ pos then .error "reflect: slice index out of range"
          else .ok (.vslice d (es.take pos.toNat ++ es.drop (pos.toNat + 1)), none)
  | .vmap d ents =>
      match lookupG node (ents.getD []) with
      | none =>
          -- child is the zero Value; reflect.Zero(child.Type()) panics.
          .error "reflect: call of reflect.Value.Type on zero Value"
      | some c =>
          -- SetMapIndex with a *valid* zero value: the key is reset, not
          -- deleted.
          .ok (.vmap d (some (setKeyG node (zeroOf c) (ents.getD []))), none)
  | .vstruct fields =>
      match findFieldG (goTitle node) fields with
      | none => .error "reflect: call of reflect.Value.Type on zero Value"
      | some child => .ok (.vstruct (setFieldG (goTitle node) (zeroOf child) fields), none)
  | .vptr _ _ => .ok (v, some .notImplemented)
  | .vgenObj ents =>
      match lookupG node ents with
      | none => .error "reflect: call of reflect.Value.Type on zero Value"
      | some _ => .ok (.vgenObj (setKeyG node .vgenNil ents), none)
  | .vgenArr es =>
      match goAtoi node with
      | none => .ok (v, some .incorrectIndex)
      | some pos =>
          if es.length = 0 then .error "reflect.MakeSlice: negative cap"
          else if pos < 0 ∨ (es.length : Int) ≤ pos then .error "reflect: slice index out of range"
          else .ok (.vgenArr (es.take pos.toNat ++ es.drop (pos.toNat + 1)), none)
  | _ => .ok (v, none)

/-- `test` (encode.go:366-406). -/
def test (node : String) (jv : JVal) (v : GoVal) : PRes (GoVal × Option GoErr) :=
  match v with
  | .vslice d es =>
      match goAtoi node with
      | none => .ok (v, some .incorrectIndex)
      | some pos =>
          if pos < 0 ∨ (es.length : Int) ≤ pos then .error "reflect: slice index out of range"
          else
            match es.getD pos.toNat d with
            | .vptr _ none => .ok (v, none)  -- nil element: treated as success
            | .vptr d' (some p) =>
                -- child = reflect.Indirect(child): the tail sees the pointee.
                let r := testTail jv p
                .ok (.vslice d (es.set pos.toNat (.vptr d' (some r.1))), r.2)
            | c =>
                let r := testTail jv c
                .ok (.vslice d (es.set pos.toNat r.1), r.2)
  | .vmap d ents =>
      match lookupG node (ents.getD []) with
      | none =>
          -- missing key: child is the zero Value; child.Interface() panics.
          .error "reflect: call of reflect.Value.Interface on zero Value"
      | some c =>
          let r := testTail jv c
          .ok (.vmap d (some (setKeyG node r.1 (ents.getD []))), r.2)
  | .vstruct fields =>
      match findFieldG (goTitle node) fields with
      | none => .error "reflect: call of reflect.Value.Interface on zero Value"
      | some c =>
          let r := testTail jv c
          .ok (.vstruct (setFieldG (goTitle node) r.1 fields), r.2)
  | .vptr _ _ => .ok (v, some .notImplemented)
  | .vgenObj ents =>
      match lookupG node ents with
      | none => .error "reflect: call of reflect.Value.Interface on zero Value"
      | some c =>
          let r := testTail jv c
          .ok (.vgenObj (setKeyG node r.1 ents), r.2)
  | .vgenArr es =>
      match goAtoi node with
      | none => .ok (v, some .incorrectIndex)
      | some pos =>
          if pos < 0 ∨ (es.length : Int) ≤ pos then .error "reflect: slice index out of range"
          else
            let r := testTail jv (es.getD pos.toNat .vgenNil)
            .ok (.vgenArr (es.set pos.toNat r.1), r.2)
  | _ =>
      -- vnum, vstr, vgenNil: no switch case matches, child stays the zero
      -- Value and child.Interface() panics.
      .error "reflect: call of reflect.Value.Interface on zero Value"

/-! ## Dispatch, navigation and Apply (encode.go:49-191) -/

/-- A parsed patch operation (the `patch` struct, encode.go:38-43).
`fromField` models the unused `From` field. -/
structure Patch where
  op : String
  path : String
  fromField : String := ""
  value : JVal := .jmissing

/-- `applyNode` (encode.go:177-191): dispatch on the op string.  Each branch
calls the operation and **ignores the error it returns**; the `copy` and
`move` cases have empty bodies; unrecognised ops fall through.  The
function always returns nil (panics still propagate). -/
def applyNode (node : String) (pt : Patch) (v : GoVal) : PRes GoVal :=
  if pt.op = "add" then (add node pt.value v).map Prod.fst
  else if pt.op = "replace" then (replace node pt.value v).map Prod.fst
  else if pt.op = "remove" then (remove node v).map Prod.fst
  else if pt.op = "test" then (test node pt.value v).map Prod.fst
  else if pt.op = "copy" then .ok v
  else if pt.op = "move" then .ok v
  else .ok v

/-- `rapply`/`findNode` (encode.go:82-149), with the path pre-split on `/`
(iterating `strings.SplitN(path, "/", 2)` splits on every slash).  The
`GoVal` argument is the pointee of the (always non-nil) pointer the code
passes around; the preamble that dereferences it has already happened.

For a non-terminal segment the code descends one level (`findNode`),
materialising nil pointer children in place, and recurses; an addressable
child is passed as `child.Addr()`, a pointer child is passed as itself.
Mutations performed below a failing navigation step are dropped here; they
are unobservable because `Apply` discards the working copy on error. -/
def rapplyL : List String → Patch → GoVal → PRes (Except GoErr GoVal)
  | [], _, v => .ok (.ok v)  -- unreachable: splitting a string never yields []
  | [root], pt, v => (applyNode root pt v).map Except.ok
  | root :: seg2 :: rest2, pt, v =>
      let rest := seg2 :: rest2
      match v with
      | .vslice d es =>
          match goAtoi root with
          | none => .ok (.error .incorrectIndex)
          | some pos =>
              if (es.length : Int) ≤ pos then .ok (.error .incorrectIndex)
              else if pos < 0 then .error "reflect: slice index out of range"
              else
                let i := pos.toNat
                match es.getD i d with
                | .vptr d' (some q) =>
                    match rapplyL rest pt q with
                    | .error m => .error m
                    | .ok (.error e) => .ok (.error e)
                    | .ok (.ok q') => .ok (.ok (.vslice d (es.set i (.vptr d' (some q')))))
                | .vptr d' none =>
                    -- slice elements are addressable: child.Set materialises
                    -- the nil pointer, then rapply descends into it.
                    match rapplyL rest pt d' with
                    | .error m => .error m
                    | .ok (.error e) => .ok (.error e)
                    | .ok (.ok q') => .ok (.ok (.vslice d (es.set i (.vptr d' (some q')))))
                | c =>
                    match rapplyL rest pt c with
                    | .error m => .error m
                    | .ok (.error e) => .ok (.error e)
                    | .ok (.ok c') => .ok (.ok (.vslice d (es.set i c')))
      | .vmap d ents =>
          match lookupG root (ents.getD []) with
          | none =>
              -- absent key: child is the zero Value, `!child.IsValid()`
              -- branch calls child.Type() and panics.
              .error "reflect: call of reflect.Value.Type on zero Value"
          | some c =>
              match c with
              | .vptr d' (some q) =>
                  match rapplyL rest pt q with
                  | .error m => .error m
                  | .ok (.error e) => .ok (.error e)
                  | .ok (.ok q') =>
                      .ok (.ok (.vmap d (some (setKeyG root (.vptr d' (some q')) (ents.getD [])))))
              | .vptr _ none =>
                  -- child.Set(newval) on a value obtained from MapIndex
                  -- panics: map elements are not addressable.
                  .error "reflect: reflect.Value.Set using unaddressable value"
              | _ =>
                  -- valid, non-pointer, not addressable: ErrUnsupported.
                  .ok (.error (.unsupported root))
      | .vstruct fields =>
          -- name := bestMatch(root, t); "" means IncorrectIndex; fields are
          -- addressable, so rapply descends via child.Addr().
          let name := bestMatch root fields
          if name = "" then .ok (.error .incorrectIndex)
          else
            match findFieldG name fields with
            | none => .ok (.error .incorrectIndex)  -- unreachable: bestMatch returns a field name
            | some c =>
                match c with
                | .vptr d' (some q) =>
                    match rapplyL rest pt q with
                    | .error m => .error m
                    | .ok (.error e) => .ok (.error e)
                    | .ok (.ok q') =>
                        .ok (.ok (.vstruct (setFieldG name (.vptr d' (some q')) fields)))
                | .vptr d' none =>
                    match rapplyL rest pt d' with
                    | .error m => .error m
                    | .ok (.error e) => .ok (.error e)
                    | .ok (.ok q') =>
                        .ok (.ok (.vstruct (setFieldG name (.vptr d' (some q')) fields)))
                | c =>
                    match rapplyL rest pt c with
                    | .error m => .error m
                    | .ok (.error e) => .ok (.error e)
                    | .ok (.ok c') => .ok (.ok (.vstruct (setFieldG name c' fields)))
      | .vptr d po =>
          -- case reflect.Ptr: child = x.Elem().
          match po with
          | none => .error "reflect: call of reflect.Value.Type on zero Value"
          | some c =>
              match c with
              | .vptr d2 (some q) =>
                  match rapplyL rest pt q with
                  | .error m => .error m
                  | .ok (.error e) => .ok (.error e)
                  | .ok (.ok q') => .ok (.ok (.vptr d (some (.vptr d2 (some q')))))
              | .vptr d2 none =>
                  match rapplyL rest pt d2 with
                  | .error m => .error m
                  | .ok (.error e) => .ok (.error e)
                  | .ok (.ok q') => .ok (.ok (.vptr d (some (.vptr d2 (some q')))))
              | c =>
                  match rapplyL rest pt c with
                  | .error m => .error m
                  | .ok (.error e) => .ok (.error e)
                  | .ok (.ok c') => .ok (.ok (.vptr d (some c')))
      | .vgenObj ents =>
          -- Kind Map with interface{} elements: a present child is valid but
          -- not addressable; an absent one panics as for vmap.
          match lookupG root ents with
          | none => .error "reflect: call of reflect.Value.Type on zero Value"
          | some _ => .ok (.error (.unsupported root))
      | .vgenArr es =>
          -- Kind Slice with addressable interface{} elements: rapply
          -- descends via child.Addr(), and the next step dispatches on
          -- Kind Interface.  With one remaining segment the ops have no
          -- Interface case — add/replace/remove/copy/move/unknown return
          -- nil untouched, test panics on the zero Value; with more
          -- segments findNode hits its Interface case: ErrUnsupported on
          -- the next segment.
          match goAtoi root with
          | none => .ok (.error .incorrectIndex)
          | some pos =>
              if (es.length : Int) ≤ pos then .ok (.error .incorrectIndex)
              else if pos < 0 then .error "reflect: slice index out of range"
              else
                match rest2 with
                | [] =>
                    if pt.op = "test" then
                      .error "reflect: call of reflect.Value.Interface on zero Value"
                    else .ok (.ok v)
                | _ => .ok (.error (.unsupported seg2))
      | .vgenNil => .ok (.error (.unsupported root))  -- Kind Interface
      | _ => .ok (.error .garbage)  -- primitives have no children

/-- Apply one parsed operation to the working copy:
`path := strings.Trim(p.Path, "/")`; `rapply(path, &p, ry)`. -/
def rapplyTop (pt : Patch) (v : GoVal) : PRes (Except GoErr GoVal) :=
  rapplyL (splitOnChar '/' (trimSlashes pt.path)) pt v

/-- The observable outcome of `Apply`: the error/panic status together with
the state of the caller's target value after the call returns (or after the
panic unwinds). -/
inductive AOut where
  | ok (target : GoVal)
  | err (e : GoErr) (target : GoVal)
  | panicked (msg : String) (target : GoVal)

/-- The loop of `Apply` (encode.go:70-76): operations run in document order
on the working copy; the first *returned* error aborts the loop. -/
def applyLoop : List Patch → GoVal → PRes (Except GoErr GoVal)
  | [], v => .ok (.ok v)
  | pt :: ps, v =>
      match rapplyTop pt v with
      | .error msg => .error msg
      | .ok (.error e) => .ok (.error e)
      | .ok (.ok v') => applyLoop ps v'

/-- `Apply` (encode.go:49-80) on an already-parsed patch document.  The
function deep-copies the target into a working copy `ry`, applies every
operation to `ry`, and only on full success commits `ry` back into the
target; on a returned error (or a panic unwinding the call) the target
keeps its pre-call value.  In this tree model a successful deep copy is
the identity; the copy engine itself is analysed separately. -/
def Apply (patches : List Patch) (x : GoVal) : AOut :=
  match applyLoop patches x with
  | .error msg => .panicked msg x
  | .ok (.error e) => .err e x
  | .ok (.ok y) => .ok y

end JP

namespace DeepM

/-!
## The `deep` module (`deep.Copy` / `rcopy`, deepcopy.go)

`deep.Copy` duplicates a value graph.  To state aliasing properties in a
shallow embedding we give every pointer an identity: a pointer is a *cell*
`some (id, pointee)` (or `none` for nil), and two pointers alias exactly
when they carry the same id.  Mutating the referent of cell `i`
(`setCell i w`) rewrites the pointee of every pointer with id `i`, which is
what writing through one of several aliased pointers does to a real heap.
The observable (structural) value of a graph is `erase`, which forgets the
identities; `erase x = erase y` models `reflect.DeepEqual`-style structural
identity of `x` and `y`.

The copy functions mirror deepcopy.go one for one.  The addressability
facts of the reflection API are resolved per call site, since they are
fixed by the shape of the code: slice elements and fields of addressable
structs are addressable (deep recursion), map values are not (`!vx.CanAddr()`
takes the shallow branch), and the pointee reached through a pointer is
addressable. -/

/-- A Go value graph: pointers carry a cell identity. -/
inductive HVal where
  | hstr (s : String)
  | hint (n : Int)
  | hptr (cell : Option (Nat × HVal))
  | hslice (elems : List HVal)
  | hmap (ents : Option (List (String × HVal)))
  | hstruct (fields : List (String × Bool × HVal))

mutual

/-- All cell identities occurring in a value. -/
def idsOf : HVal → List Nat
  | .hptr (some (i, p)) => i :: idsOf p
  | .hslice es => idsOfList es
  | .hmap (some xs) => idsOfEnts xs
  | .hstruct fs => idsOfFields fs
  | _ => []
termination_by structural x => x

def idsOfList : List HVal → List Nat
  | [] => []
  | e :: rest => idsOf e ++ idsOfList rest
termination_by structural xs => xs

def idsOfEnts : List (String × HVal) → List Nat
  | [] => []
  | (_, v) :: rest => idsOf v ++ idsOfEnts rest
termination_by structural xs => xs

def idsOfFields : List (String × Bool × HVal) → List Nat
  | [] => []
  | (_, _, v) :: rest => idsOf v ++ idsOfFields rest
termination_by structural xs => xs

end

mutual

/-- Write `w` into cell `i`: every pointer with id `i`, anywhere in the
value, now refers to `w` (aliased pointers share the mutation). -/
def setCell (i : Nat) (w : HVal) : HVal → HVal
  | .hptr (some (j, p)) =>
      if j = i then .hptr (some (j, w)) else .hptr (some (j, setCell i w p))
  | .hptr none => .hptr none
  | .hslice es => .hslice (setCellList i w es)
  | .hmap (some xs) => .hmap (some (setCellEnts i w xs))
  | .hmap none => .hmap none
  | .hstruct fs => .hstruct (setCellFields i w fs)
  | v => v
termination_by structural v => v

def setCellList (i : Nat) (w : HVal) : List HVal → List HVal
  | [] => []
  | e :: rest => setCell i w e :: setCellList i w rest
termination_by structural xs => xs

def setCellEnts (i : Nat) (w : HVal) : List (String × HVal) → List (String × HVal)
  | [] => []
  | (k, v) :: rest => (k, setCell i w v) :: setCellEnts i w rest
termination_by structural xs => xs

def setCellFields (i : Nat) (w : HVal) : List (String × Bool × HVal) → List (String × Bool × HVal)
  | [] => []
  | (n, a, v) :: rest => (n, a, setCell i w v) :: setCellFields i w rest
termination_by structural xs => xs

end

mutual

/-- Forget cell identities (rename every id to 0): the observable structural
value.  `erase x = erase y` is structural/deep equality of the graphs. -/
def erase : HVal → HVal
  | .hptr (some (_, p)) => .hptr (some (0, erase p))
  | .hptr none => .hptr none
  | .hslice es => .hslice (eraseList es)
  | .hmap (some xs) => .hmap (some (eraseEnts xs))
  | .hmap none => .hmap none
  | .hstruct fs => .hstruct (eraseFields fs)
  | v => v
termination_by structural v => v

def eraseList : List HVal → List HVal
  | [] => []
  | e :: rest => erase e :: eraseList rest
termination_by structural xs => xs

def eraseEnts : List (String × HVal) → List (String × HVal)
  | [] => []
  | (k, v) :: rest => (k, erase v) :: eraseEnts rest
termination_by structural xs => xs

def eraseFields : List (String × Bool × HVal) → List (String × Bool × HVal)
  | [] => []
  | (n, a, v) :: rest => (n, a, erase v) :: eraseFields rest
termination_by structural xs => xs

end

/-- The test `string(st.Name[0]) != strings.ToUpper(string(st.Name[0]))`
used by `copyStruct` to skip unexported fields: a field is copied deeply
only when upper-casing the first character leaves it unchanged. -/
def keptByCase (n : String) : Bool :=
  match n.toList with
  | [] => true
  | ch :: _ => ch.toUpper = ch

mutual

/-- `rcopy` (deepcopy.go:39-79) acting on the pointee of the passed
pointer.  The `Ptr` case materialises a fresh cell and copies the pointee
into it; a nil pointee makes `reflect.New(vx.Type())` panic on the invalid
`Value`.  `c` is the next fresh cell id. -/
def rcopyVal (c : Nat) (x : HVal) : Except String (Nat × HVal) :=
  match x with
  | .hslice es =>
      match copyArrayM c es with
      | .error e => .error e
      | .ok (c', es') => .ok (c', .hslice es')
  | .hmap ents =>
      match ents with
      | none => .ok (c, .hmap none)  -- x.IsNil(): return nil, y stays the nil map
      | some xs =>
          match copyMapEnts c xs with
          | .error e => .error e
          | .ok (c', ys) => .ok (c', .hmap (some ys))
  | .hstruct fs =>
      match copyStructFields c fs with
      | .error e => .error e
      | .ok (c', fs') => .ok (c', .hstruct fs')
  | .hptr cell =>
      match cell with
      | none => .error "reflect: call of reflect.Value.Type on zero Value"
      | some (_, inner) =>
          match rcopyVal (c + 1) inner with
          | .error e => .error e
          | .ok (c', inner') => .ok (c', .hptr (some (c, inner')))
  | x => .ok (c, x)  -- primitives: y.Set(x) / copyPrimitives
termination_by structural x

/-- The `copyArray` loop (deepcopy.go:94-115).  A pointer element gets a
fresh cell whose pointee is copied recursively; a nil pointer element makes
the recursive `rcopy` dereference an invalid `Value` and fail with
`ErrUnsupported`; other elements are addressable and are copied deeply. -/
def copyArrayM (c : Nat) (es : List HVal) : Except String (Nat × List HVal) :=
  match es with
  | [] => .ok (c, [])
  | e :: rest =>
      match e with
      | .hptr none =>
          .error "deep: unsupported kind"
      | .hptr (some (_, inner)) =>
          match rcopyVal (c + 1) inner with
          | .error err => .error err
          | .ok (c', inner') =>
              match copyArrayM c' rest with
              | .error err => .error err
              | .ok (c'', rest') => .ok (c'', .hptr (some (c, inner')) :: rest')
      | e =>
          match rcopyVal c e with
          | .error err => .error err
          | .ok (c', e') =>
              match copyArrayM c' rest with
              | .error err => .error err
              | .ok (c'', rest') => .ok (c'', e' :: rest')
termination_by structural es

/-- The `copyMap` loop (deepcopy.go:130-160).  A nil-pointer value is
skipped (`if !el.IsValid() { continue }`) — the key is silently dropped
from the copy.  A non-nil pointer value gets a fresh cell.  Any other value
comes from `MapIndex`, is not addressable, and is assigned *shallowly*
(`y.SetMapIndex(key, vx)`): pointers inside it keep their cells. -/
def copyMapEnts (c : Nat) (xs : List (String × HVal)) : Except String (Nat × List (String × HVal)) :=
  match xs with
  | [] => .ok (c, [])
  | (k, vx) :: rest =>
      match vx with
      | .hptr none => copyMapEnts c rest
      | .hptr (some (_, inner)) =>
          match rcopyVal (c + 1) inner with
          | .error err => .error err
          | .ok (c', inner') =>
              match copyMapEnts c' rest with
              | .error err => .error err
              | .ok (c'', rest') => .ok (c'', (k, .hptr (some (c, inner'))) :: rest')
      | vx =>
          match copyMapEnts c rest with
          | .error err => .error err
          | .ok (c', rest') => .ok (c', (k, vx) :: rest')
termination_by structural xs

/-- The `copyStruct` loop (deepcopy.go:176-215).  `y.Set(x)` first makes
`y` a shallow copy of `x`, so fields that the loop skips — anonymous
(embedded) fields and unexported fields — keep the values (and cells) of
`x`.  Named exported fields are then re-copied: nil pointer fields are
skipped (they stay nil), non-nil pointer fields get a fresh cell, other
fields are addressable and copied deeply. -/
def copyStructFields (c : Nat) (fs : List (String × Bool × HVal)) : Except String (Nat × List (String × Bool × HVal)) :=
  match fs with
  | [] => .ok (c, [])
  | (n, anon, vx) :: rest =>
      if anon ∨ keptByCase n = false then
        match copyStructFields c rest with
        | .error err => .error err
        | .ok (c', rest') => .ok (c', (n, anon, vx) :: rest')
      else
        match vx with
        | .hptr none =>
            match copyStructFields c rest with
            | .error err => .error err
            | .ok (c', rest') => .ok (c', (n, anon, vx) :: rest')
        | .hptr (some (_, inner)) =>
            match rcopyVal (c + 1) inner with
            | .error err => .error err
            | .ok (c', inner') =>
                match copyStructFields c' rest with
                | .error err => .error err
                | .ok (c'', rest') => .ok (c'', (n, anon, .hptr (some (c, inner'))) :: rest')
        | vx =>
            match rcopyVal c vx with
            | .error err => .error err
            | .ok (c', vx') =>
                match copyStructFields c' rest with
                | .error err => .error err
                | .ok (c'', rest') => .ok (c'', (n, anon, vx') :: rest')
termination_by structural fs

end

/-- `deep.Copy(&x, &y)` with a freshly zero-initialised `y` and the next
fresh cell id `c`: `Copy` checks that both arguments are pointers and then
calls `rcopy` on them, which dereferences both and dispatches on the
pointee. -/
def deepCopy (c : Nat) (x : HVal) : Except String (Nat × HVal) :=
  rcopyVal c x

mutual

/-- No pointers anywhere in the value (then a shallow assignment really
shares nothing mutable). -/
def ptrFree : HVal → Bool
  | .hptr _ => false
  | .hslice es => ptrFreeList es
  | .hmap (some xs) => ptrFreeEnts xs
  | .hstruct fs => ptrFreeFields fs
  | _ => true
termination_by structural v => v

def ptrFreeList : List HVal → Bool
  | [] => true
  | e :: rest => ptrFree e && ptrFreeList rest
termination_by structural xs => xs

def ptrFreeEnts : List (String × HVal) → Bool
  | [] => true
  | (_, v) :: rest => ptrFree v && ptrFreeEnts rest
termination_by structural xs => xs

def ptrFreeFields : List (String × Bool × HVal) → Bool
  | [] => true
  | (_, _, v) :: rest => ptrFree v && ptrFreeFields rest
termination_by structural xs => xs

end

mutual

/-- The class of values on which the copy engine actually delivers its
contract: no nil pointers in positions where the copy dereferences or
drops them (slice elements, map values), no pointers hidden inside
non-pointer map values (those are assigned shallowly and stay aliased),
and no pointers inside anonymous or unexported struct fields (those keep
the shallow `y.Set(x)` copy). -/
def clean : HVal → Bool
  | .hstr _ => true
  | .hint _ => true
  | .hptr none => false
  | .hptr (some (_, p)) => clean p
  | .hslice es => cleanList es
  | .hmap none => true
  | .hmap (some xs) => cleanMapEnts xs
  | .hstruct fs => cleanFields fs
termination_by structural v => v

def cleanList : List HVal → Bool
  | [] => true
  | e :: rest => clean e && cleanList rest
termination_by structural xs => xs

def cleanMapEnts : List (String × HVal) → Bool
  | [] => true
  | (_, v) :: rest =>
      (match v with
       | .hptr (some (_, p)) => clean p
       | .hptr none => false
       | v => ptrFree v) && cleanMapEnts rest
termination_by structural xs => xs

def cleanFields : List (String × Bool × HVal) → Bool
  | [] => true
  | (n, anon, v) :: rest =>
      (if anon ∨ keptByCase n = false then ptrFree v
       else match v with
            | .hptr none => true
            | v => clean v) && cleanFields rest
termination_by structural xs => xs

end

/-- All cell ids in the value are below `c` (so `c` is fresh). -/
def allIdsLt (c : Nat) (x : HVal) : Bool :=
  (idsOf x).all (fun i => i < c)

end DeepM

namespace JP

/-! ## Concrete fixtures used by the closed theorems -/

/-- `[]string` slice value. -/
def strSlice (xs : List String) : GoVal := .vslice (.vstr "") (xs.map .vstr)

/-- Host `{A int, B string}` with `A = 0`, `B = "y"`. -/
def abHost : GoVal := .vstruct [("A", "", .vnum .goInt 0), ("B", "", .vstr "y")]

/-- `abHost` after `add /a 5`. -/
def abMutated : GoVal := .vstruct [("A", "", .vnum .goInt 5), ("B", "", .vstr "y")]

/-- A patch whose second operation (`test /b "x"`) fails on `abHost`. -/
def abPatches : List Patch :=
  [{ op := "add", path := "/a", value := .jnum 5 },
   { op := "test", path := "/b", value := .jstr "x" }]

/-- Host `{Name string, M map[string]string}` with `Name = "h"`,
`M = {"a": "hello"}`. -/
def nmHost : GoVal :=
  .vstruct [("Name", "", .vstr "h"), ("M", "", .vmap (.vstr "") (some [("a", .vstr "hello")]))]

/-- A patch whose first operation (`replace /m/b`) addresses a missing map
key and whose second operation replaces `Name`. -/
def nmPatches : List Patch :=
  [{ op := "replace", path := "/m/b", value := .jstr "x" },
   { op := "replace", path := "/name", value := .jstr "z" }]

/-- `nmHost` with `Name` replaced by `"z"`. -/
def nmZ : GoVal :=
  .vstruct [("Name", "", .vstr "z"), ("M", "", .vmap (.vstr "") (some [("a", .vstr "hello")]))]

/-- `nmHost` after `remove /m/a`: the key stays, reset to `""`. -/
def nmRemoved : GoVal :=
  .vstruct [("Name", "", .vstr "h"), ("M", "", .vmap (.vstr "") (some [("a", .vstr "")]))]

/-- Host with `Phones: ["37489239"]` (the README/testsuite scenario). -/
def phonesHost : GoVal := .vstruct [("Phones", "", strSlice ["37489239"])]

def phonesPatches : List Patch :=
  [{ op := "add", path := "/phones/-", value := .jstr "8390240670" },
   { op := "add", path := "/phones/1", value := .jstr "9096040676" }]

def phonesResult : GoVal :=
  .vstruct [("Phones", "", strSlice ["37489239", "9096040676", "8390240670"])]

/-- Host `{Age int}`. -/
def ageHost (n : Int) : GoVal := .vstruct [("Age", "", .vnum .goInt n)]

/-- A struct whose single field `A` carries the json tag `AwesomeName`
(the `TestBestMatch` fixture). -/
def tagFields : List (String × String × GoVal) := [("A", "AwesomeName", .vstr "old")]

/-- The zero value of the child struct type `{Name string}`. -/
def childZero : GoVal := .vstruct [("Name", "", .vstr "")]

/-- Host `{Name string, Child *struct{Name string}}` with a nil `Child`. -/
def nilChildHost : GoVal :=
  .vstruct [("Name", "", .vstr "h"), ("Child", "", .vptr childZero none)]

/-- `nilChildHost` with `Child` materialised to a fresh zero value — the
side effect navigation leaves behind even when the dispatched operation
does nothing. -/
def nilChildMaterialized : GoVal :=
  .vstruct [("Name", "", .vstr "h"), ("Child", "", .vptr childZero (some childZero))]

end JP

namespace DeepM

/-- A map whose value is a (non-pointer) struct holding a pointer: the
`!vx.CanAddr()` branch of `copyMap` assigns it shallowly, so cell 0 stays
shared between the original and the copy. -/
def aliasedMap : HVal :=
  .hmap (some [("k", .hstruct [("P", false, .hptr (some (0, .hint 7)))])])

/-- A struct with an exported pointer field: a value on which the copy
engine does allocate a fresh cell. -/
def freshStruct : HVal := .hstruct [("A", false, .hptr (some (0, .hint 7)))]

end DeepM

/-! # Theorems -/

namespace JP

/-! ## Shared helper lemmas -/

theorem goAtoi_dash : goAtoi "-" = none := rfl

theorem lookupG_setKeyG_self (k : String) (v : GoVal) (l : List (String × GoVal)) :
    lookupG k (setKeyG k v l) = some v := by
  induction l with
  | nil => simp [setKeyG, lookupG]
  | cons h t ih =>
      obtain ⟨k', w⟩ := h
      by_cases hk : k' = k
      · simp [setKeyG, hk, lookupG]
      · simp [setKeyG, hk, lookupG, ih]

theorem fieldNames_setFieldG (n : String) (v : GoVal) (fs : List (String × String × GoVal)) :
    fieldNames (setFieldG n v fs) = fieldNames fs := by
  induction fs with
  | nil => simp [setFieldG]
  | cons h t ih =>
      obtain ⟨n', t', w⟩ := h
      by_cases hn : n' = n
      · simp [setFieldG, hn, fieldNames]
      · simp [setFieldG, hn, fieldNames] at ih ⊢
        exact ih

/-! ## C1 — atomicity of `Apply` -/

/-- C1: the claimed atomicity fails.  On the host `{A:0, B:"y"}` the
document `[add /a 5, test /b "x"]` has a failing second operation — `test`
returns "elements are not equal" — but `applyNode` (encode.go:177-191)
discards every operation error, so `Apply` returns no error and commits the
working copy: after the call the target holds `{A:5, B:"y"}`, not its
pre-call value.  This contradicts the code's own stated intent
(encode.go:62-64 and the README's "applies the changes only if all of the
operations in the patch succeeded"), so the code, not the claim, is wrong. -/
theorem C1_apply_commits_after_failed_op :
    test "b" (.jstr "x") abMutated = .ok (abMutated, some .elementsNotEqual) ∧
    Apply abPatches abHost = .ok abMutated :=
  ⟨rfl, rfl⟩

/-! ## C2 — copy/move operations -/

/-- C2, counterexample: a document containing a `copy` (or `move`) operation
does not fail with `NotImplemented` — `Apply` returns success (the claim
says it always fails).  The host is unchanged only because the empty
dispatch case does nothing at all. -/
theorem C2_counterexample :
    Apply [{ op := "copy", path := "/name", fromField := "/m/a" }] nmHost = .ok nmHost ∧
    Apply [{ op := "move", path := "/name", fromField := "/m/a" }] nmHost = .ok nmHost :=
  ⟨rfl, rfl⟩

/-- C2, amended: `copy` and `move` are recognised by the dispatch switch but
their cases are empty: once navigation reaches the terminal segment the
operation is a silent successful no-op — no `NotImplemented` error, no
mutation — and subsequent operations keep executing. -/
theorem C2_amended_copy_move_silent_noop (node : String) (pt : Patch) (v : GoVal)
    (h : pt.op = "copy" ∨ pt.op = "move") :
    applyNode node pt v = .ok v := by
  rcases h with h | h <;> simp [applyNode, h]

theorem C2_witness :
    applyNode "name" { op := "copy", path := "/name" } nmHost = .ok nmHost :=
  C2_amended_copy_move_silent_noop "name" { op := "copy", path := "/name" } nmHost (Or.inl rfl)

/-! ## C3 — replace on a missing map key -/

/-- C3: `replace` on a keyed map whose terminal key is absent does return
exactly the error "map element not found" (first conjunct), but `applyNode`
discards it, so `Apply` does not abort: on `{Name:"h", M:{"a":"hello"}}`
the document `[replace /m/b "x", replace /name "z"]` returns no error and
the second operation still executes, committing `Name = "z"`.  The claim
describes the error produced by `replace` itself; dropping it in
`applyNode` contradicts the code's declared all-or-nothing behaviour, so
this is a code bug. -/
theorem C3_map_replace_error_swallowed :
    replace "b" (.jstr "x") (.vmap (.vstr "") (some [("a", .vstr "hello")])) =
      .ok (.vmap (.vstr "") (some [("a", .vstr "hello")]), some .mapElementNotFound) ∧
    Apply nmPatches nmHost = .ok nmZ :=
  ⟨rfl, rfl⟩

/-! ## C8 — numeric `test` -/

/-- C8, counterexample: a mismatching numeric `test` does not surface
"elements are not equal": `Apply` on `{Age:100}` of `[test /age 99]`
returns success (the internal error is discarded by `applyNode`). -/
theorem C8_counterexample :
    Apply [{ op := "test", path := "/age", value := .jnum 99 }] (ageHost 100) =
      .ok (ageHost 100) :=
  rfl

theorem split_age : splitOnChar '/' (trimSlashes "/age") = ["age"] := rfl

theorem goTitle_age : goTitle "age" = "Age" := rfl

/-- C8, amended: there is no numeric conversion before the comparison.
`test` decodes the literal into an `interface{}` holding a non-pointer
`int`, which `encoding/json` replaces by a generic `float64`; since
`reflect.DeepEqual` distinguishes `float64` from `int`, the comparison
fails for *every* literal `m`, equal or not — `test` returns "elements are
not equal" even for `test /age n` against `{Age:n}`.  `applyNode` then
discards that error, so `Apply` reports success for matching and
mismatching numeric tests alike and never mutates anything. -/
theorem C8_amended_numeric_test (n m : Int) :
    test "age" (.jnum m) (ageHost n) = .ok (ageHost n, some .elementsNotEqual) ∧
    Apply [{ op := "test", path := "/age", value := .jnum m }] (ageHost n) =
      .ok (ageHost n) := by
  have htest : test "age" (.jnum m) (ageHost n) = .ok (ageHost n, some .elementsNotEqual) := by
    simp [test, ageHost, goTitle_age, findFieldG, testTail, genDecode, unmarshalGeneric,
      deq, setFieldG]
  refine ⟨htest, ?_⟩
  simp [Apply, applyLoop, rapplyTop, split_age, rapplyL, applyNode, htest, Except.map]

/-! ## C10 — unrecognised operations -/

/-- C10, counterexample: an unrecognised op is *not* an Apply-level no-op,
because navigation runs before dispatch.  On `{Phones:["37489239"]}` the
operation `{"op":"zzz","path":"/phones/9/x"}` makes `Apply` return
`IncorrectIndex` and abort the document — the following `replace /phones/0`
never executes (the target keeps `"37489239"`).  And on a host with a nil
`Child` pointer, `{"op":"zzz","path":"/child/name"}` returns no error but
materialises `Child` in the working copy, which `Apply` then commits: a
mutation caused by an operation the claim says "causes no mutation". -/
theorem C10_counterexample :
    Apply [{ op := "zzz", path := "/phones/9/x" },
           { op := "replace", path := "/phones/0", value := .jstr "Z" }] phonesHost =
      .err .incorrectIndex phonesHost ∧
    Apply [{ op := "zzz", path := "/child/name" }] nilChildHost = .ok nilChildMaterialized :=
  ⟨rfl, rfl⟩

/-- C10, amended: an operation whose op string is none of the six
recognised ones is a no-op at the dispatch level only: `applyNode` sends it
to the empty default of the switch and returns nil without touching its
container, and with a single-segment path the rest of the document runs
unaffected (second conjunct: an unknown `frobnicate` is followed by a
`replace` that takes effect).  Navigation still runs before dispatch, so an
unknown op with a multi-segment path can return a navigation error
(aborting the remaining operations) and can materialise nil intermediate
pointers (mutating the working copy). -/
theorem C10_amended_unknown_op_dispatch :
    (∀ (node : String) (pt : Patch) (v : GoVal),
        pt.op ∉ (["add", "replace", "remove", "test", "copy", "move"] : List String) →
        applyNode node pt v = .ok v) ∧
    Apply [{ op := "frobnicate", path := "/name", value := .jstr "q" },
           { op := "replace", path := "/name", value := .jstr "z" }] nmHost = .ok nmZ := by
  refine ⟨?_, rfl⟩
  intro node pt v h
  simp only [List.mem_cons, List.not_mem_nil, or_false, not_or] at h
  obtain ⟨h1, h2, h3, h4, h5, h6⟩ := h
  simp [applyNode, h1, h2, h3, h4, h5, h6]

theorem C10_amended_witness :
    applyNode "name" { op := "frobnicate", path := "/name" } nmHost = .ok nmHost :=
  C10_amended_unknown_op_dispatch.1 "name" { op := "frobnicate", path := "/name" } nmHost
    (by decide)

end JP

namespace JP

/-! ## More helper lemmas for sequence claims -/

theorem map_vstr_getD (xs : List String) (k : Nat) :
    (xs.map GoVal.vstr).getD k (.vstr "") = .vstr (xs.getD k "") := by
  induction xs generalizing k with
  | nil => simp [List.getD]
  | cons x t ih => cases k <;> simp [List.getD, ih]

theorem map_vstr_set (xs : List String) (k : Nat) (s : String) :
    (xs.map GoVal.vstr).set k (.vstr s) = (xs.set k s).map GoVal.vstr := by
  induction xs generalizing k with
  | nil => simp
  | cons x t ih =>
      cases k with
      | zero => simp
      | succ n => simpa using ih n

theorem goAtoi_ne_dash {node : String} {i : Int} (h : goAtoi node = some i) : node ≠ "-" := by
  intro hd
  rw [hd, goAtoi_dash] at h
  exact Option.noConfusion h

/-! ## C5 — `add` on sequences -/

/-- C5, counterexample: on the sequence `["a"]` (length 1) the operation
`add /…/1` — index equal to the length — does not append: `v.Index(pos)`
has no bounds check and panics with an out-of-range index. -/
theorem C5_counterexample :
    add "1" (.jstr "x") (strSlice ["a"]) = .error "reflect: slice index out of range" :=
  rfl

/-- C5, amended: on a `[]string` sequence, `add` with segment `-` appends
the decoded value; a parsed index `0 ≤ i < L` inserts at `i` shifting the
rest right; but any index `i ≥ L` (including `i = L`) panics with an
out-of-range index instead of appending or returning `IncorrectIndex`.
The concrete Phones scenario (append, then insert at 1) still yields
`["37489239","9096040676","8390240670"]`. -/
theorem C5_amended_add_sequence :
    (∀ (xs : List String) (s : String),
        add "-" (.jstr s) (strSlice xs) = .ok (strSlice (xs ++ [s]), none)) ∧
    (∀ (xs : List String) (node : String) (i : Int) (s : String),
        goAtoi node = some i → 0 ≤ i → i < (xs.length : Int) →
        add node (.jstr s) (strSlice xs) =
          .ok (strSlice (xs.take i.toNat ++ [s] ++ xs.drop i.toNat), none)) ∧
    (∀ (xs : List String) (node : String) (i : Int) (s : String),
        goAtoi node = some i → (xs.length : Int) ≤ i →
        add node (.jstr s) (strSlice xs) = .error "reflect: slice index out of range") ∧
    Apply phonesPatches phonesHost = .ok phonesResult := by
  refine ⟨?_, ?_, ?_, rfl⟩
  · intro xs s
    simp only [add, strSlice, genDecode, unmarshalGeneric, sameTy, reduceIte]
    simp
  · intro xs node i s hparse h0 hlt
    have hne := goAtoi_ne_dash hparse
    have hb : ¬(i < 0 ∨ ((xs.map GoVal.vstr).length : Int) ≤ i) := by
      simp only [List.length_map]
      omega
    simp only [add, strSlice, if_neg hne, hparse, if_neg hb]
    rw [map_vstr_getD]
    simp only [genDecode, unmarshalGeneric, sameTy]
    simp [List.map_append, List.map_take, List.map_drop]
  · intro xs node i s hparse hge
    have hne := goAtoi_ne_dash hparse
    have hb : (i < 0 ∨ ((xs.map GoVal.vstr).length : Int) ≤ i) := by
      simp only [List.length_map]
      omega
    simp only [add, strSlice, if_neg hne, hparse, if_pos hb]

theorem C5_witness :
    add "-" (.jstr "x") (strSlice ["a"]) = .ok (strSlice ["a", "x"], none) ∧
    add "1" (.jstr "z") (strSlice ["a", "b"]) =
      .ok (strSlice (["a", "b"].take 1 ++ ["z"] ++ ["a", "b"].drop 1), none) ∧
    add "5" (.jstr "z") (strSlice ["a"]) = .error "reflect: slice index out of range" :=
  ⟨C5_amended_add_sequence.1 ["a"] "x",
   C5_amended_add_sequence.2.1 ["a", "b"] "1" 1 "z" rfl (by decide) (by decide),
   C5_amended_add_sequence.2.2.1 ["a"] "5" 5 "z" rfl (by decide)⟩

/-! ## C6 — `replace` on sequences -/

/-- C6, counterexample: `replace` at index `i = L` is not "permitted as a
boundary case completing without fault": on `["a"]` (length 1), index 1
passes the `pos > v.Len()` check but `v.Index(pos)` then panics. -/
theorem C6_counterexample :
    replace "1" (.jstr "x") (strSlice ["a"]) = .error "reflect: slice index out of range" :=
  rfl

/-- C6, amended: for a parsed index `i` on a `[]string` sequence of length
`L`, `replace` returns `IncorrectIndex` exactly when `i > L`; `i = L` slips
through the bounds check and panics on the out-of-range element access
(instead of completing without fault); negative `i` panics the same way;
and `0 ≤ i < L` replaces the element in place. -/
theorem C6_amended_replace_sequence :
    (∀ (xs : List String) (node : String) (i : Int) (s : String),
        goAtoi node = some i → (xs.length : Int) < i →
        replace node (.jstr s) (strSlice xs) = .ok (strSlice xs, some .incorrectIndex)) ∧
    (∀ (xs : List String) (node : String) (i : Int) (s : String),
        goAtoi node = some i → i = (xs.length : Int) →
        replace node (.jstr s) (strSlice xs) = .error "reflect: slice index out of range") ∧
    (∀ (xs : List String) (node : String) (i : Int) (s : String),
        goAtoi node = some i → i < 0 →
        replace node (.jstr s) (strSlice xs) = .error "reflect: slice index out of range") ∧
    (∀ (xs : List String) (node : String) (i : Int) (s : String),
        goAtoi node = some i → 0 ≤ i → i < (xs.length : Int) →
        replace node (.jstr s) (strSlice xs) = .ok (strSlice (xs.set i.toNat s), none)) ∧
    (∀ (xs : List String) (node : String) (i : Int) (s : String) (w : GoVal),
        goAtoi node = some i →
        replace node (.jstr s) (strSlice xs) = .ok (w, some .incorrectIndex) →
        (xs.length : Int) < i) := by
  have h1 : ∀ (xs : List String) (node : String) (i : Int) (s : String),
      goAtoi node = some i → (xs.length : Int) < i →
      replace node (.jstr s) (strSlice xs) = .ok (strSlice xs, some .incorrectIndex) := by
    intro xs node i s hparse hgt
    have hb : ((xs.map GoVal.vstr).length : Int) < i := by simpa using hgt
    simp only [replace, strSlice, hparse, if_pos hb]
  have h2 : ∀ (xs : List String) (node : String) (i : Int) (s : String),
      goAtoi node = some i → i = (xs.length : Int) →
      replace node (.jstr s) (strSlice xs) = .error "reflect: slice index out of range" := by
    intro xs node i s hparse heq
    have hb : ¬ ((xs.map GoVal.vstr).length : Int) < i := by simp; omega
    have hb2 : (i < 0 ∨ i = ((xs.map GoVal.vstr).length : Int)) := by simp; omega
    simp only [replace, strSlice, hparse, if_neg hb, if_pos hb2]
  have h3 : ∀ (xs : List String) (node : String) (i : Int) (s : String),
      goAtoi node = some i → i < 0 →
      replace node (.jstr s) (strSlice xs) = .error "reflect: slice index out of range" := by
    intro xs node i s hparse hneg
    have hb : ¬ ((xs.map GoVal.vstr).length : Int) < i := by simp; omega
    have hb2 : (i < 0 ∨ i = ((xs.map GoVal.vstr).length : Int)) := Or.inl hneg
    simp only [replace, strSlice, hparse, if_neg hb, if_pos hb2]
  have h4 : ∀ (xs : List String) (node : String) (i : Int) (s : String),
      goAtoi node = some i → 0 ≤ i → i < (xs.length : Int) →
      replace node (.jstr s) (strSlice xs) = .ok (strSlice (xs.set i.toNat s), none) := by
    intro xs node i s hparse h0 hlt
    have hb : ¬ ((xs.map GoVal.vstr).length : Int) < i := by simp; omega
    have hb2 : ¬ (i < 0 ∨ i = ((xs.map GoVal.vstr).length : Int)) := by simp; omega
    simp only [replace, strSlice, hparse, if_neg hb, if_neg hb2]
    rw [map_vstr_getD]
    simp only [genDecode, unmarshalGeneric, sameTy]
    rw [map_vstr_set]
    simp
  refine ⟨h1, h2, h3, h4, ?_⟩
  intro xs node i s w hparse heq
  rcases lt_trichotomy i ((xs.length : Int)) with hlt | hE | hgt
  · rcases lt_or_le i 0 with hneg | h0
    · rw [h3 xs node i s hparse hneg] at heq
      exact absurd heq (by simp)
    · rw [h4 xs node i s hparse h0 hlt] at heq
      exact absurd heq (by simp)
  · rw [h2 xs node i s hparse hE] at heq
    exact absurd heq (by simp)
  · exact hgt

theorem C6_witness :
    replace "3" (.jstr "x") (strSlice ["a"]) = .ok (strSlice ["a"], some .incorrectIndex) ∧
    replace "1" (.jstr "x") (strSlice ["a"]) = .error "reflect: slice index out of range" ∧
    replace "0" (.jstr "x") (strSlice ["a"]) = .ok (strSlice (["a"].set 0 "x"), none) :=
  ⟨C6_amended_replace_sequence.1 ["a"] "3" 3 "x" rfl (by decide),
   C6_amended_replace_sequence.2.1 ["a"] "1" 1 "x" rfl (by decide),
   C6_amended_replace_sequence.2.2.2.1 ["a"] "0" 0 "x" rfl (by decide) (by decide)⟩

/-! ## C7 — terminal field resolution on records -/

/-- C7, counterexample: the Field Resolver (`bestMatch`) resolves the
segment `AwesomeName` to field `A` through its json tag, but the terminal
`add`/`replace` do not use it — they look up `strings.Title(segment)` by
exact name only, find nothing, and panic on the invalid `Value` instead of
returning `IncorrectIndex` (and certainly do not apply the resolver
rules). -/
theorem C7_counterexample :
    bestMatch "AwesomeName" tagFields = "A" ∧
    add "AwesomeName" (.jstr "new") (.vstruct tagFields) =
      .error "reflect: call of reflect.Value.Type on zero Value" ∧
    replace "AwesomeName" (.jstr "new") (.vstruct tagFields) =
      .error "reflect: call of reflect.Value.Type on zero Value" :=
  ⟨rfl, rfl, rfl⟩

/-- C7, amended: for `add` and `replace` whose terminal container is a
record, the segment is resolved by Title-casing it and requiring an exact
field-name match (`v.FieldByName(strings.Title(node))`); the `bestMatch`
rules apply only to non-terminal segments.  When no field matches, the
operation panics on the zero `Value` (`reflect.New(child.Type())`) rather
than returning `IncorrectIndex`; and no operation ever creates a new field
— any successful outcome is a struct with exactly the original field
names. -/
theorem C7_amended_terminal_field_resolution :
    (∀ (node : String) (jv : JVal) (fields : List (String × String × GoVal)),
        findFieldG (goTitle node) fields = none →
        add node jv (.vstruct fields) = .error "reflect: call of reflect.Value.Type on zero Value" ∧
        replace node jv (.vstruct fields) = .error "reflect: call of reflect.Value.Type on zero Value") ∧
    (∀ (node : String) (jv : JVal) (fields : List (String × String × GoVal)) (out : GoVal) (e : Option GoErr),
        add node jv (.vstruct fields) = .ok (out, e) →
        ∃ fields', out = .vstruct fields' ∧ fieldNames fields' = fieldNames fields) ∧
    (∀ (node : String) (jv : JVal) (fields : List (String × String × GoVal)) (out : GoVal) (e : Option GoErr),
        replace node jv (.vstruct fields) = .ok (out, e) →
        ∃ fields', out = .vstruct fields' ∧ fieldNames fields' = fieldNames fields) := by
  refine ⟨?_, ?_, ?_⟩
  · intro node jv fields h
    exact ⟨by simp [add, h], by simp [replace, h]⟩
  · intro node jv fields out e h
    simp only [add] at h
    split at h
    · exact Except.noConfusion h
    · split at h
      · split at h
        · obtain ⟨h1, h2⟩ := Prod.mk.inj (Except.ok.inj h)
          exact ⟨fields, h1.symm, rfl⟩
        · obtain ⟨h1, h2⟩ := Prod.mk.inj (Except.ok.inj h)
          exact ⟨_, h1.symm, fieldNames_setFieldG ..⟩
      · split at h
        · obtain ⟨h1, h2⟩ := Prod.mk.inj (Except.ok.inj h)
          exact ⟨fields, h1.symm, rfl⟩
        · obtain ⟨h1, h2⟩ := Prod.mk.inj (Except.ok.inj h)
          exact ⟨_, h1.symm, fieldNames_setFieldG ..⟩
  · intro node jv fields out e h
    simp only [replace] at h
    split at h
    · exact Except.noConfusion h
    · split at h
      · obtain ⟨h1, h2⟩ := Prod.mk.inj (Except.ok.inj h)
        exact ⟨fields, h1.symm, rfl⟩
      · obtain ⟨h1, h2⟩ := Prod.mk.inj (Except.ok.inj h)
        exact ⟨_, h1.symm, fieldNames_setFieldG ..⟩

theorem C7_witness :
    add "name" (.jnull) (.vstruct []) = .error "reflect: call of reflect.Value.Type on zero Value" ∧
    replace "name" (.jnull) (.vstruct []) = .error "reflect: call of reflect.Value.Type on zero Value" :=
  C7_amended_terminal_field_resolution.1 "name" .jnull [] rfl

/-! ## C9 — `remove` on keyed maps -/

/-- C9: `remove` on a keyed map whose terminal segment is a present key
resets that key's slot to the zero value of the stored element's type (the
map's value type) via `SetMapIndex(key, reflect.Zero(child.Type()))` — the
key itself stays present, mapped to the zero value.  The closed conjunct is
the spec scenario: removing `/m/a` from `{Name:"h", M:{"a":"hello"}}`
leaves `M` containing `"a" ↦ ""`. -/
theorem C9_remove_map_resets_key :
    (∀ (d : GoVal) (ents : List (String × GoVal)) (node : String) (c : GoVal),
        lookupG node ents = some c →
        remove node (.vmap d (some ents)) =
          .ok (.vmap d (some (setKeyG node (zeroOf c) ents)), none) ∧
        lookupG node (setKeyG node (zeroOf c) ents) = some (zeroOf c)) ∧
    Apply [{ op := "remove", path := "/m/a" }] nmHost = .ok nmRemoved := by
  refine ⟨?_, rfl⟩
  intro d ents node c h
  exact ⟨by simp [remove, h], lookupG_setKeyG_self node (zeroOf c) ents⟩

theorem C9_witness :
    remove "a" (.vmap (.vstr "") (some [("a", .vstr "hello")])) =
      .ok (.vmap (.vstr "") (some (setKeyG "a" (zeroOf (.vstr "hello")) [("a", .vstr "hello")])), none) ∧
    lookupG "a" (setKeyG "a" (zeroOf (.vstr "hello")) [("a", .vstr "hello")]) =
      some (zeroOf (.vstr "hello")) :=
  C9_remove_map_resets_key.1 (.vstr "") [("a", .vstr "hello")] "a" (.vstr "hello") rfl

end JP

namespace DeepM

/-! ## Helper lemmas for the copy-engine claims -/

mutual

/-- Writing through a cell that does not occur in a value leaves the value
untouched. -/
theorem setCell_not_mem : (v : HVal) → ∀ (i : Nat) (w : HVal), i ∉ idsOf v → setCell i w v = v
  | .hstr _, _, _, _ => rfl
  | .hint _, _, _, _ => rfl
  | .hptr none, _, _, _ => rfl
  | .hptr (some (j, p)), i, w, h => by
      simp only [idsOf, List.mem_cons, not_or] at h
      simp only [setCell, if_neg (fun e : j = i => h.1 e.symm)]
      rw [setCell_not_mem p i w h.2]
  | .hslice es, i, w, h => by
      simp only [idsOf] at h
      simp only [setCell]
      rw [setCellList_not_mem es i w h]
  | .hmap none, _, _, _ => rfl
  | .hmap (some xs), i, w, h => by
      simp only [idsOf] at h
      simp only [setCell]
      rw [setCellEnts_not_mem xs i w h]
  | .hstruct fs, i, w, h => by
      simp only [idsOf] at h
      simp only [setCell]
      rw [setCellFields_not_mem fs i w h]
termination_by structural v => v

theorem setCellList_not_mem : (es : List HVal) → ∀ (i : Nat) (w : HVal), i ∉ idsOfList es → setCellList i w es = es
  | [], _, _, _ => rfl
  | e :: rest, i, w, h => by
      simp only [idsOfList, List.mem_append, not_or] at h
      simp only [setCellList]
      rw [setCell_not_mem e i w h.1, setCellList_not_mem rest i w h.2]
termination_by structural es => es

theorem setCellEnts_not_mem : (xs : List (String × HVal)) → ∀ (i : Nat) (w : HVal), i ∉ idsOfEnts xs → setCellEnts i w xs = xs
  | [], _, _, _ => rfl
  | (k, v) :: rest, i, w, h => by
      simp only [idsOfEnts, List.mem_append, not_or] at h
      simp only [setCellEnts]
      rw [setCell_not_mem v i w h.1, setCellEnts_not_mem rest i w h.2]
termination_by structural xs => xs

theorem setCellFields_not_mem : (fs : List (String × Bool × HVal)) → ∀ (i : Nat) (w : HVal), i ∉ idsOfFields fs → setCellFields i w fs = fs
  | [], _, _, _ => rfl
  | (n, a, v) :: rest, i, w, h => by
      simp only [idsOfFields, List.mem_append, not_or] at h
      simp only [setCellFields]
      rw [setCell_not_mem v i w h.1, setCellFields_not_mem rest i w h.2]
termination_by structural fs => fs

end

mutual

/-- A pointer-free value contains no cell ids. -/
theorem ptrFree_idsOf : (v : HVal) → ptrFree v = true → idsOf v = []
  | .hstr _, _ => rfl
  | .hint _, _ => rfl
  | .hptr o, h => by simp [ptrFree] at h
  | .hslice es, h => by
      simp only [ptrFree] at h
      simp only [idsOf]
      exact ptrFree_idsOfList es h
  | .hmap none, _ => rfl
  | .hmap (some xs), h => by
      simp only [ptrFree] at h
      simp only [idsOf]
      exact ptrFree_idsOfEnts xs h
  | .hstruct fs, h => by
      simp only [ptrFree] at h
      simp only [idsOf]
      exact ptrFree_idsOfFields fs h
termination_by structural v => v

theorem ptrFree_idsOfList : (es : List HVal) → ptrFreeList es = true → idsOfList es = []
  | [], _ => rfl
  | e :: rest, h => by
      simp only [ptrFreeList, Bool.and_eq_true] at h
      simp only [idsOfList]
      rw [ptrFree_idsOf e h.1, ptrFree_idsOfList rest h.2]
      rfl
termination_by structural es => es

theorem ptrFree_idsOfEnts : (xs : List (String × HVal)) → ptrFreeEnts xs = true → idsOfEnts xs = []
  | [], _ => rfl
  | (k, v) :: rest, h => by
      simp only [ptrFreeEnts, Bool.and_eq_true] at h
      simp only [idsOfEnts]
      rw [ptrFree_idsOf v h.1, ptrFree_idsOfEnts rest h.2]
      rfl
termination_by structural xs => xs

theorem ptrFree_idsOfFields : (fs : List (String × Bool × HVal)) → ptrFreeFields fs = true → idsOfFields fs = []
  | [], _ => rfl
  | (n, a, v) :: rest, h => by
      simp only [ptrFreeFields, Bool.and_eq_true] at h
      simp only [idsOfFields]
      rw [ptrFree_idsOf v h.1, ptrFree_idsOfFields rest h.2]
      rfl
termination_by structural fs => fs

end

end DeepM

namespace DeepM

/-! ## Unfolding equations for the copy loops -/

theorem copyArrayM_cons_nonptr (c : Nat) (e : HVal) (rest : List HVal)
    (hne : ∀ o, e ≠ .hptr o) :
    copyArrayM c (e :: rest) =
      match rcopyVal c e with
      | .error err => .error err
      | .ok (c', e') =>
          match copyArrayM c' rest with
          | .error err => .error err
          | .ok (c'', rest') => .ok (c'', e' :: rest') := by
  cases e
  case hptr o => exact absurd rfl (hne o)
  all_goals rfl

theorem copyMapEnts_cons_nonptr (c : Nat) (k : String) (v : HVal)
    (rest : List (String × HVal)) (hne : ∀ o, v ≠ .hptr o) :
    copyMapEnts c ((k, v) :: rest) =
      match copyMapEnts c rest with
      | .error err => .error err
      | .ok (c', rest') => .ok (c', (k, v) :: rest') := by
  cases v
  case hptr o => exact absurd rfl (hne o)
  all_goals rfl

theorem copyStructFields_cons_skip (c : Nat) (n : String) (anon : Bool) (v : HVal)
    (rest : List (String × Bool × HVal)) (hskip : anon = true ∨ keptByCase n = false) :
    copyStructFields c ((n, anon, v) :: rest) =
      match copyStructFields c rest with
      | .error err => .error err
      | .ok (c', rest') => .ok (c', (n, anon, v) :: rest') := by
  cases v
  case hptr o =>
    cases o with
    | none => simp only [copyStructFields]; rw [if_pos hskip]
    | some cell =>
        obtain ⟨j, inner⟩ := cell
        simp only [copyStructFields]; rw [if_pos hskip]
  all_goals (simp only [copyStructFields]; rw [if_pos hskip])

theorem copyStructFields_cons_nilptr (c : Nat) (n : String) (anon : Bool)
    (rest : List (String × Bool × HVal)) (hkeep : ¬(anon = true ∨ keptByCase n = false)) :
    copyStructFields c ((n, anon, .hptr none) :: rest) =
      match copyStructFields c rest with
      | .error err => .error err
      | .ok (c', rest') => .ok (c', (n, anon, .hptr none) :: rest') := by
  simp only [copyStructFields]; rw [if_neg hkeep]

theorem copyStructFields_cons_ptr (c : Nat) (n : String) (anon : Bool) (j : Nat) (inner : HVal)
    (rest : List (String × Bool × HVal)) (hkeep : ¬(anon = true ∨ keptByCase n = false)) :
    copyStructFields c ((n, anon, .hptr (some (j, inner))) :: rest) =
      match rcopyVal (c + 1) inner with
      | .error err => .error err
      | .ok (c', inner') =>
          match copyStructFields c' rest with
          | .error err => .error err
          | .ok (c'', rest') => .ok (c'', (n, anon, .hptr (some (c, inner'))) :: rest') := by
  simp only [copyStructFields]; rw [if_neg hkeep]

theorem copyStructFields_cons_deep (c : Nat) (n : String) (anon : Bool) (v : HVal)
    (rest : List (String × Bool × HVal)) (hkeep : ¬(anon = true ∨ keptByCase n = false))
    (hne : ∀ o, v ≠ .hptr o) :
    copyStructFields c ((n, anon, v) :: rest) =
      match rcopyVal c v with
      | .error err => .error err
      | .ok (c', v') =>
          match copyStructFields c' rest with
          | .error err => .error err
          | .ok (c'', rest') => .ok (c'', (n, anon, v') :: rest') := by
  cases v
  case hptr o => exact absurd rfl (hne o)
  all_goals (simp only [copyStructFields]; rw [if_neg hkeep])

/-! ## Unfolding equations for the clean predicates -/

theorem cleanMapEnts_cons (k : String) (v : HVal) (rest : List (String × HVal)) :
    cleanMapEnts ((k, v) :: rest) =
      ((match v with
        | .hptr (some (_, p)) => clean p
        | .hptr none => false
        | v => ptrFree v) && cleanMapEnts rest) := by
  cases v
  case hptr o =>
    cases o with
    | none => rfl
    | some cell => obtain ⟨_, p⟩ := cell; rfl
  all_goals rfl

theorem cleanFields_cons (n : String) (anon : Bool) (v : HVal)
    (rest : List (String × Bool × HVal)) :
    cleanFields ((n, anon, v) :: rest) =
      ((if anon ∨ keptByCase n = false then ptrFree v
        else match v with
             | .hptr none => true
             | v => clean v) && cleanFields rest) := by
  cases v
  case hptr o =>
    cases o with
    | none => rfl
    | some cell => obtain ⟨_, p⟩ := cell; rfl
  all_goals rfl

/-! ## Step lemmas (no recursion) assembled by the main induction -/

/-- Shallow map-value step: a non-pointer, pointer-free map value is kept
verbatim; extending a successful copy of the remaining entries preserves
the specification. -/
theorem copyMapEnts_shallow_step (c : Nat) (k : String) (v : HVal)
    (rest : List (String × HVal)) (hne : ∀ o, v ≠ .hptr o) (hpf : ptrFree v = true)
    (c2 : Nat) (rest' : List (String × HVal))
    (hr : copyMapEnts c rest = .ok (c2, rest')) (hle2 : c ≤ c2)
    (her2 : eraseEnts rest' = eraseEnts rest)
    (hids2 : ∀ i ∈ idsOfEnts rest', c ≤ i ∧ i < c2) :
    ∃ p : Nat × List (String × HVal), copyMapEnts c ((k, v) :: rest) = .ok p ∧ c ≤ p.1 ∧
      eraseEnts p.2 = eraseEnts ((k, v) :: rest) ∧
      ∀ i ∈ idsOfEnts p.2, c ≤ i ∧ i < p.1 := by
  refine ⟨(c2, (k, v) :: rest'), ?_, hle2, ?_, ?_⟩
  · rw [copyMapEnts_cons_nonptr _ _ _ _ hne, hr]
  · simp only [eraseEnts, her2]
  · intro i hi
    simp only [idsOfEnts, List.mem_append] at hi
    rcases hi with hi | hi
    · rw [ptrFree_idsOf _ hpf] at hi
      exact absurd hi (List.not_mem_nil i)
    · exact hids2 i hi

/-- Deep slice-element step for non-pointer elements. -/
theorem copyArrayM_deep_step (c : Nat) (e : HVal) (rest : List HVal)
    (hne : ∀ o, e ≠ .hptr o)
    (c1 : Nat) (y : HVal) (hy : rcopyVal c e = .ok (c1, y)) (hle1 : c ≤ c1)
    (her1 : erase y = erase e) (hids1 : ∀ i ∈ idsOf y, c ≤ i ∧ i < c1)
    (c2 : Nat) (rest' : List HVal) (hr : copyArrayM c1 rest = .ok (c2, rest'))
    (hle2 : c1 ≤ c2) (her2 : eraseList rest' = eraseList rest)
    (hids2 : ∀ i ∈ idsOfList rest', c1 ≤ i ∧ i < c2) :
    ∃ p : Nat × List HVal, copyArrayM c (e :: rest) = .ok p ∧ c ≤ p.1 ∧
      eraseList p.2 = eraseList (e :: rest) ∧
      ∀ i ∈ idsOfList p.2, c ≤ i ∧ i < p.1 := by
  refine ⟨(c2, y :: rest'), ?_, by omega, ?_, ?_⟩
  · rw [copyArrayM_cons_nonptr _ _ _ hne]
    simp only [hy, hr]
  · simp only [eraseList, her1, her2]
  · intro i hi
    simp only [idsOfList, List.mem_append] at hi
    rcases hi with hi | hi
    · obtain ⟨a, b⟩ := hids1 i hi
      exact ⟨a, by omega⟩
    · obtain ⟨a, b⟩ := hids2 i hi
      exact ⟨by omega, by omega⟩

/-- Deep struct-field step for non-pointer field values. -/
theorem copyStructFields_deep_step (c : Nat) (n : String) (anon : Bool) (v : HVal)
    (rest : List (String × Bool × HVal)) (hkeep : ¬(anon = true ∨ keptByCase n = false))
    (hne : ∀ o, v ≠ .hptr o)
    (c1 : Nat) (y : HVal) (hy : rcopyVal c v = .ok (c1, y)) (hle1 : c ≤ c1)
    (her1 : erase y = erase v) (hids1 : ∀ i ∈ idsOf y, c ≤ i ∧ i < c1)
    (c2 : Nat) (rest' : List (String × Bool × HVal))
    (hr : copyStructFields c1 rest = .ok (c2, rest')) (hle2 : c1 ≤ c2)
    (her2 : eraseFields rest' = eraseFields rest)
    (hids2 : ∀ i ∈ idsOfFields rest', c1 ≤ i ∧ i < c2) :
    ∃ p : Nat × List (String × Bool × HVal),
      copyStructFields c ((n, anon, v) :: rest) = .ok p ∧ c ≤ p.1 ∧
      eraseFields p.2 = eraseFields ((n, anon, v) :: rest) ∧
      ∀ i ∈ idsOfFields p.2, c ≤ i ∧ i < p.1 := by
  refine ⟨(c2, (n, anon, y) :: rest'), ?_, by omega, ?_, ?_⟩
  · rw [copyStructFields_cons_deep _ _ _ _ _ hkeep hne]
    simp only [hy, hr]
  · simp only [eraseFields, her1, her2]
  · intro i hi
    simp only [idsOfFields, List.mem_append] at hi
    rcases hi with hi | hi
    · obtain ⟨a, b⟩ := hids1 i hi
      exact ⟨a, by omega⟩
    · obtain ⟨a, b⟩ := hids2 i hi
      exact ⟨by omega, by omega⟩

/-! ## The copy-engine correctness core -/

mutual

/-- `rcopy` on a clean value succeeds, preserves the observable value, and
only allocates cells in the fresh region `[c, c')`. -/
theorem rcopyVal_spec : (x : HVal) → ∀ (c : Nat), clean x = true →
    ∃ p : Nat × HVal, rcopyVal c x = .ok p ∧ c ≤ p.1 ∧ erase p.2 = erase x ∧
      ∀ i ∈ idsOf p.2, c ≤ i ∧ i < p.1
  | .hstr s, c, _ => ⟨(c, .hstr s), rfl, le_refl c, rfl, by simp [idsOf]⟩
  | .hint n, c, _ => ⟨(c, .hint n), rfl, le_refl c, rfl, by simp [idsOf]⟩
  | .hptr none, c, h => by simp [clean] at h
  | .hptr (some (j, inner)), c, h => by
      simp only [clean] at h
      obtain ⟨⟨c1, y⟩, hy, hle, her, hids⟩ := rcopyVal_spec inner (c + 1) h
      refine ⟨(c1, .hptr (some (c, y))), ?_, by omega, ?_, ?_⟩
      · simp only [rcopyVal, hy]
      · simp only [erase, her]
      · intro i hi
        simp only [idsOf, List.mem_cons] at hi
        rcases hi with rfl | hi
        · exact ⟨le_refl _, by omega⟩
        · obtain ⟨a, b⟩ := hids i hi
          exact ⟨by omega, b⟩
  | .hslice es, c, h => by
      simp only [clean] at h
      obtain ⟨⟨c1, es'⟩, he, hle, her, hids⟩ := copyArrayM_spec es c h
      refine ⟨(c1, .hslice es'), ?_, hle, ?_, ?_⟩
      · simp only [rcopyVal, he]
      · simp only [erase, her]
      · intro i hi
        simp only [idsOf] at hi
        exact hids i hi
  | .hmap none, c, _ => ⟨(c, .hmap none), rfl, le_refl c, rfl, by simp [idsOf]⟩
  | .hmap (some xs), c, h => by
      simp only [clean] at h
      obtain ⟨⟨c1, ys⟩, he, hle, her, hids⟩ := copyMapEnts_spec xs c h
      refine ⟨(c1, .hmap (some ys)), ?_, hle, ?_, ?_⟩
      · simp only [rcopyVal, he]
      · simp only [erase, her]
      · intro i hi
        simp only [idsOf] at hi
        exact hids i hi
  | .hstruct fs, c, h => by
      simp only [clean] at h
      obtain ⟨⟨c1, fs'⟩, he, hle, her, hids⟩ := copyStructFields_spec fs c h
      refine ⟨(c1, .hstruct fs'), ?_, hle, ?_, ?_⟩
      · simp only [rcopyVal, he]
      · simp only [erase, her]
      · intro i hi
        simp only [idsOf] at hi
        exact hids i hi
termination_by structural x => x

theorem copyArrayM_spec : (es : List HVal) → ∀ (c : Nat), cleanList es = true →
    ∃ p : Nat × List HVal, copyArrayM c es = .ok p ∧ c ≤ p.1 ∧ eraseList p.2 = eraseList es ∧
      ∀ i ∈ idsOfList p.2, c ≤ i ∧ i < p.1
  | [], c, _ => ⟨(c, []), rfl, le_refl c, rfl, by simp [idsOfList]⟩
  | e :: rest, c, h => by
      simp only [cleanList, Bool.and_eq_true] at h
      obtain ⟨he, hrest⟩ := h
      cases e
      case hptr o =>
        cases o with
        | none => simp [clean] at he
        | some cell =>
            obtain ⟨j, inner⟩ := cell
            simp only [clean] at he
            obtain ⟨⟨c1, y⟩, hy, hle1, her1, hids1⟩ := rcopyVal_spec inner (c + 1) he
            obtain ⟨⟨c2, rest'⟩, hr, hle2, her2, hids2⟩ := copyArrayM_spec rest c1 hrest
            refine ⟨(c2, .hptr (some (c, y)) :: rest'), ?_, by omega, ?_, ?_⟩
            · simp only [copyArrayM, hy, hr]
            · simp only [eraseList, erase, her1, her2]
            · intro i hi
              simp only [idsOfList, idsOf, List.mem_append, List.mem_cons] at hi
              rcases hi with (rfl | hi) | hi
              · exact ⟨le_refl _, by omega⟩
              · obtain ⟨a, b⟩ := hids1 i hi
                exact ⟨by omega, by omega⟩
              · obtain ⟨a, b⟩ := hids2 i hi
                exact ⟨by omega, by omega⟩
      all_goals (
        obtain ⟨⟨c1, y⟩, hy, hle1, her1, hids1⟩ := rcopyVal_spec _ c he
        obtain ⟨⟨c2, rest'⟩, hr, hle2, her2, hids2⟩ := copyArrayM_spec rest c1 hrest
        exact copyArrayM_deep_step c _ rest (fun o heq => HVal.noConfusion heq)
          c1 y hy hle1 her1 hids1 c2 rest' hr hle2 her2 hids2)
termination_by structural es => es

theorem copyMapEnts_spec : (xs : List (String × HVal)) → ∀ (c : Nat), cleanMapEnts xs = true →
    ∃ p : Nat × List (String × HVal), copyMapEnts c xs = .ok p ∧ c ≤ p.1 ∧
      eraseEnts p.2 = eraseEnts xs ∧
      ∀ i ∈ idsOfEnts p.2, c ≤ i ∧ i < p.1
  | [], c, _ => ⟨(c, []), rfl, le_refl c, rfl, by simp [idsOfEnts]⟩
  | (k, v) :: rest, c, h => by
      rw [cleanMapEnts_cons, Bool.and_eq_true] at h
      obtain ⟨hv, hrest⟩ := h
      cases v
      case hptr o =>
        cases o with
        | none => simp at hv
        | some cell =>
            obtain ⟨j, inner⟩ := cell
            obtain ⟨⟨c1, y⟩, hy, hle1, her1, hids1⟩ := rcopyVal_spec inner (c + 1) hv
            obtain ⟨⟨c2, rest'⟩, hr, hle2, her2, hids2⟩ := copyMapEnts_spec rest c1 hrest
            refine ⟨(c2, (k, .hptr (some (c, y))) :: rest'), ?_, by omega, ?_, ?_⟩
            · simp only [copyMapEnts, hy, hr]
            · simp only [eraseEnts, erase, her1, her2]
            · intro i hi
              simp only [idsOfEnts, idsOf, List.mem_append, List.mem_cons] at hi
              rcases hi with (rfl | hi) | hi
              · exact ⟨le_refl _, by omega⟩
              · obtain ⟨a, b⟩ := hids1 i hi
                exact ⟨by omega, by omega⟩
              · obtain ⟨a, b⟩ := hids2 i hi
                exact ⟨by omega, by omega⟩
      all_goals (
        obtain ⟨⟨c2, rest'⟩, hr, hle2, her2, hids2⟩ := copyMapEnts_spec rest c hrest
        exact copyMapEnts_shallow_step c k _ rest (fun o heq => HVal.noConfusion heq) hv
          c2 rest' hr hle2 her2 hids2)
termination_by structural xs => xs

theorem copyStructFields_spec : (fs : List (String × Bool × HVal)) → ∀ (c : Nat), cleanFields fs = true →
    ∃ p : Nat × List (String × Bool × HVal), copyStructFields c fs = .ok p ∧ c ≤ p.1 ∧
      eraseFields p.2 = eraseFields fs ∧
      ∀ i ∈ idsOfFields p.2, c ≤ i ∧ i < p.1
  | [], c, _ => ⟨(c, []), rfl, le_refl c, rfl, by simp [idsOfFields]⟩
  | (n, anon, v) :: rest, c, h => by
      rw [cleanFields_cons, Bool.and_eq_true] at h
      obtain ⟨hv, hrest⟩ := h
      by_cases hskip : (anon = true ∨ keptByCase n = false)
      · rw [if_pos hskip] at hv
        obtain ⟨⟨c2, rest'⟩, hr, hle2, her2, hids2⟩ := copyStructFields_spec rest c hrest
        refine ⟨(c2, (n, anon, v) :: rest'), ?_, hle2, ?_, ?_⟩
        · rw [copyStructFields_cons_skip _ _ _ _ _ hskip, hr]
        · simp only [eraseFields, her2]
        · intro i hi
          simp only [idsOfFields, List.mem_append] at hi
          rcases hi with hi | hi
          · rw [ptrFree_idsOf _ hv] at hi
            exact absurd hi (List.not_mem_nil i)
          · exact hids2 i hi
      · rw [if_neg hskip] at hv
        cases v with
        | hptr o =>
            cases o with
            | none =>
                obtain ⟨⟨c2, rest'⟩, hr, hle2, her2, hids2⟩ := copyStructFields_spec rest c hrest
                refine ⟨(c2, (n, anon, .hptr none) :: rest'), ?_, hle2, ?_, ?_⟩
                · rw [copyStructFields_cons_nilptr _ _ _ _ hskip, hr]
                · simp only [eraseFields, erase, her2]
                · intro i hi
                  simp only [idsOfFields, idsOf, List.mem_append] at hi
                  rcases hi with hi | hi
                  · exact absurd hi (List.not_mem_nil i)
                  · exact hids2 i hi
            | some cell =>
                obtain ⟨j, inner⟩ := cell
                obtain ⟨⟨c1, y⟩, hy, hle1, her1, hids1⟩ := rcopyVal_spec inner (c + 1) hv
                obtain ⟨⟨c2, rest'⟩, hr, hle2, her2, hids2⟩ := copyStructFields_spec rest c1 hrest
                refine ⟨(c2, (n, anon, .hptr (some (c, y))) :: rest'), ?_, by omega, ?_, ?_⟩
                · rw [copyStructFields_cons_ptr _ _ _ _ _ _ hskip]
                  simp only [hy, hr]
                · simp only [eraseFields, erase, her1, her2]
                · intro i hi
                  simp only [idsOfFields, idsOf, List.mem_append, List.mem_cons] at hi
                  rcases hi with (rfl | hi) | hi
                  · exact ⟨le_refl _, by omega⟩
                  · obtain ⟨a, b⟩ := hids1 i hi
                    exact ⟨by omega, by omega⟩
                  · obtain ⟨a, b⟩ := hids2 i hi
                    exact ⟨by omega, by omega⟩
        | hstr s =>
            obtain ⟨⟨c1, y⟩, hy, hle1, her1, hids1⟩ := rcopyVal_spec _ c hv
            obtain ⟨⟨c2, rest'⟩, hr, hle2, her2, hids2⟩ := copyStructFields_spec rest c1 hrest
            exact copyStructFields_deep_step c n anon _ rest hskip
              (fun o heq => HVal.noConfusion heq) c1 y hy hle1 her1 hids1 c2 rest' hr hle2 her2 hids2
        | hint m =>
            obtain ⟨⟨c1, y⟩, hy, hle1, her1, hids1⟩ := rcopyVal_spec _ c hv
            obtain ⟨⟨c2, rest'⟩, hr, hle2, her2, hids2⟩ := copyStructFields_spec rest c1 hrest
            exact copyStructFields_deep_step c n anon _ rest hskip
              (fun o heq => HVal.noConfusion heq) c1 y hy hle1 her1 hids1 c2 rest' hr hle2 her2 hids2
        | hslice es =>
            obtain ⟨⟨c1, y⟩, hy, hle1, her1, hids1⟩ := rcopyVal_spec _ c hv
            obtain ⟨⟨c2, rest'⟩, hr, hle2, her2, hids2⟩ := copyStructFields_spec rest c1 hrest
            exact copyStructFields_deep_step c n anon _ rest hskip
              (fun o heq => HVal.noConfusion heq) c1 y hy hle1 her1 hids1 c2 rest' hr hle2 her2 hids2
        | hmap m =>
            obtain ⟨⟨c1, y⟩, hy, hle1, her1, hids1⟩ := rcopyVal_spec _ c hv
            obtain ⟨⟨c2, rest'⟩, hr, hle2, her2, hids2⟩ := copyStructFields_spec rest c1 hrest
            exact copyStructFields_deep_step c n anon _ rest hskip
              (fun o heq => HVal.noConfusion heq) c1 y hy hle1 her1 hids1 c2 rest' hr hle2 her2 hids2
        | hstruct gs =>
            obtain ⟨⟨c1, y⟩, hy, hle1, her1, hids1⟩ := rcopyVal_spec _ c hv
            obtain ⟨⟨c2, rest'⟩, hr, hle2, her2, hids2⟩ := copyStructFields_spec rest c1 hrest
            exact copyStructFields_deep_step c n anon _ rest hskip
              (fun o heq => HVal.noConfusion heq) c1 y hy hle1 her1 hids1 c2 rest' hr hle2 her2 hids2
termination_by structural fs => fs

end

end DeepM

namespace DeepM

/-- C4, counterexample: `deep.Copy` does not deliver the no-aliasing law.
On a map whose value is a non-pointer struct containing a pointer (cell 0),
the `!vx.CanAddr()` branch of `copyMap` assigns the value shallowly: the
copy succeeds and is literally the same graph — cell 0 is shared — so
writing through the pointer reachable from the source observably changes
the copy, although the copy deep-equals the source at copy time. -/
theorem C4_counterexample :
    deepCopy 1 aliasedMap = .ok (1, aliasedMap) ∧
    (0 : Nat) ∈ idsOf aliasedMap ∧
    erase (setCell 0 (.hint 9) aliasedMap) ≠ erase aliasedMap := by
  refine ⟨rfl, by decide, ?_⟩
  intro h
  simp [aliasedMap, erase, setCell, eraseEnts, eraseFields, setCellEnts, setCellFields] at h

/-- C4, amended: the round-trip/no-aliasing law holds on the class of
`clean` values — no nil pointers in slice elements or map values (the
former make the copy fail, the latter silently drop the key), no pointers
inside non-pointer map values (assigned shallowly, staying aliased), and no
pointers inside anonymous or unexported struct fields (kept from the
shallow whole-struct assignment).  For a clean value whose cells all lie
below the fresh-id supply `c`: the copy succeeds, the clone observably
equals the original, and mutating any cell of the original leaves the
clone untouched, and vice versa. -/
theorem C4_amended_deep_copy (x : HVal) (c : Nat)
    (hclean : clean x = true) (hfresh : allIdsLt c x = true) :
    ∃ p : Nat × HVal, deepCopy c x = .ok p ∧
      erase p.2 = erase x ∧
      (∀ (i : Nat) (w : HVal), i ∈ idsOf x → setCell i w p.2 = p.2) ∧
      (∀ (i : Nat) (w : HVal), i ∈ idsOf p.2 → setCell i w x = x) := by
  simp only [allIdsLt, List.all_eq_true, decide_eq_true_eq] at hfresh
  obtain ⟨p, hp, hle, her, hids⟩ := rcopyVal_spec x c hclean
  refine ⟨p, hp, her, ?_, ?_⟩
  · intro i w hi
    have hlt : i < c := hfresh i hi
    apply setCell_not_mem
    intro hmem
    obtain ⟨a, b⟩ := hids i hmem
    omega
  · intro i w hi
    obtain ⟨a, b⟩ := hids i hi
    apply setCell_not_mem
    intro hmem
    have hlt : i < c := hfresh i hmem
    omega

theorem C4_witness :
    ∃ p : Nat × HVal, deepCopy 1 freshStruct = .ok p ∧
      erase p.2 = erase freshStruct ∧
      (∀ (i : Nat) (w : HVal), i ∈ idsOf freshStruct → setCell i w p.2 = p.2) ∧
      (∀ (i : Nat) (w : HVal), i ∈ idsOf p.2 → setCell i w freshStruct = freshStruct) :=
  C4_amended_deep_copy freshStruct 1 (by decide) (by decide)

end DeepM
